import Mathlib

/-!
Verification of the `ssschem` state-space schematic generator
(`src/ssschem/{model,graph,render}.py`) against its specification.

The development shallowly embeds the repository code:

* `Expr` models the fragment of the sympy symbolic-expression layer the
  engine uses (integer constants, symbols, sums, products, powers).
  Equality on `Expr` is structural equality, which models sympy's `==`
  on (auto-evaluated) expression trees; `simplifyE` models
  `sympy.simplify` on the polynomial fragment by expansion into a
  canonical multivariate-polynomial normal form (non-polynomial
  subexpressions such as `s**(-1)` are returned unchanged, as sympy's
  simplifier leaves them fixed for the inputs this program builds).
* `Mat` models `sympy.Matrix` (a rectangular array of expressions).
* `Graph` models `networkx.DiGraph`: ordered node and edge lists with
  attribute dictionaries; `Graph.addNodeAttrs` / `Graph.addEdgeAttrs`
  implement networkx's upsert semantics (re-adding merges attributes,
  adding an edge creates missing endpoint nodes).
* The builder functions (`build_sfg_graph`, `build_integrator_graph`,
  `build_graph`, `_add_state_edges`, `_add_edge`, `_is_zero` and the
  id/label helpers) are transliterated from `src/ssschem/graph.py`.
* The render functions (`NODE_STYLES`, `graph_to_dot`, `format_gain`)
  are transliterated from `src/ssschem/render.py`.
-/

namespace SSSchem

/-- Symbolic expression layer: the fragment of sympy expressions used by the
engine (integer constants, named symbols, binary sums/products/powers).
Structural equality models sympy `==` on expression trees. -/
inductive Expr where
  | const : Int → Expr
  | sym : String → Expr
  | add : Expr → Expr → Expr
  | mul : Expr → Expr → Expr
  | pow : Expr → Expr → Expr
deriving DecidableEq, Repr

/-- `sp.Integer(0)` (graph.py line 13). -/
def ZERO : Expr := .const 0

/-- `sp.Integer(1)` (graph.py line 12, render.py line 13). -/
def ONE : Expr := .const 1

/-- `sp.Symbol("s")` (graph.py line 11). -/
def S_SYMBOL : Expr := .sym "s"

/-- `ONE / S_SYMBOL` (graph.py line 56): sympy auto-evaluates
`Mul(Integer(1), Pow(s, -1))` to `Pow(s, -1)`. -/
def oneOverS : Expr := .pow S_SYMBOL (.const (-1))

/-! ### Decimal rendering of naturals

Models Python's `str(int)` / f-string interpolation of a nonnegative
integer (used by the node-id helpers `f"x{index + 1}"` etc.). -/

/-- The decimal digit character for `d < 10`. -/
def digitChar : Nat → Char
  | 0 => '0' | 1 => '1' | 2 => '2' | 3 => '3' | 4 => '4'
  | 5 => '5' | 6 => '6' | 7 => '7' | 8 => '8' | 9 => '9'
  | _ => '*'

/-- Numeric value of a decimal digit character. -/
def digitVal (c : Char) : Nat :=
  if c = '0' then 0 else if c = '1' then 1 else if c = '2' then 2
  else if c = '3' then 3 else if c = '4' then 4 else if c = '5' then 5
  else if c = '6' then 6 else if c = '7' then 7 else if c = '8' then 8
  else if c = '9' then 9 else 10

/-- Decimal digit list, fuel-bounded (structural recursion so that the
kernel can evaluate it). -/
def natDigitsAux : Nat → Nat → List Char
  | 0, _ => []
  | fuel + 1, n =>
    if n < 10 then [digitChar n]
    else natDigitsAux fuel (n / 10) ++ [digitChar (n % 10)]

/-- Decimal digit list of a natural number (most significant first). -/
def natDigits (n : Nat) : List Char := natDigitsAux (n + 1) n

/-- Decimal string of a natural number; models Python `str(n)` for `n ≥ 0`. -/
def natStr (n : Nat) : String := ⟨natDigits n⟩

/-- Decimal string of an integer; models Python `str`. -/
def intStr (n : Int) : String :=
  if n < 0 then "-" ++ natStr n.natAbs else natStr n.natAbs

theorem digitVal_digitChar {d : Nat} (h : d < 10) : digitVal (digitChar d) = d := by
  interval_cases d <;> decide

theorem digitChar_isDigit {d : Nat} (h : d < 10) : (digitChar d).isDigit = true := by
  interval_cases d <;> decide

/-- Value of a digit list (most significant first). -/
def digitsVal (l : List Char) : Nat := l.foldl (fun acc c => 10 * acc + digitVal c) 0

theorem digitsVal_append_singleton (l : List Char) (c : Char) :
    digitsVal (l ++ [c]) = 10 * digitsVal l + digitVal c := by
  simp [digitsVal, List.foldl_append]

theorem natDigitsAux_irrel : ∀ fuel fuel2 n, n < fuel → n < fuel2 →
    natDigitsAux fuel n = natDigitsAux fuel2 n := by
  intro fuel
  induction fuel with
  | zero => omega
  | succ fuel ih =>
    intro fuel2 n h1 h2
    cases fuel2 with
    | zero => omega
    | succ fuel2 =>
      show (if n < 10 then _ else _) = (if n < 10 then _ else _)
      by_cases h : n < 10
      · simp [h]
      · have hdiv : n / 10 < n := Nat.div_lt_self (by omega) (by omega)
        simp only [h, if_false]
        rw [ih fuel2 (n / 10) (by omega) (by omega)]

theorem natDigits_step (n : Nat) :
    natDigits n = if n < 10 then [digitChar n]
      else natDigits (n / 10) ++ [digitChar (n % 10)] := by
  show (if n < 10 then _ else _) = _
  by_cases h : n < 10
  · simp [h]
  · have hdiv : n / 10 < n := Nat.div_lt_self (by omega) (by omega)
    simp only [h, if_false]
    rw [natDigitsAux_irrel n (n / 10 + 1) (n / 10) (by omega) (by omega)]
    rfl

theorem digitsVal_natDigits (n : Nat) : digitsVal (natDigits n) = n := by
  induction n using Nat.strong_induction_on with
  | _ n ih =>
    rw [natDigits_step]
    by_cases h : n < 10
    · simp only [h, if_pos]
      simp [digitsVal, digitVal_digitChar h]
    · simp only [h, if_neg, not_false_iff, if_false]
      rw [digitsVal_append_singleton, ih (n / 10) (Nat.div_lt_self (by omega) (by omega)),
        digitVal_digitChar (Nat.mod_lt _ (by omega))]
      omega

theorem natDigits_ne_nil (n : Nat) : natDigits n ≠ [] := by
  rw [natDigits_step]
  by_cases h : n < 10 <;> simp [h]

theorem natDigits_all_digit (n : Nat) : ∀ c ∈ natDigits n, c.isDigit = true := by
  induction n using Nat.strong_induction_on with
  | _ n ih =>
    rw [natDigits_step]
    by_cases h : n < 10
    · simp only [h, if_pos, List.mem_singleton]
      rintro c rfl
      exact digitChar_isDigit h
    · simp only [h, if_neg, not_false_iff, if_false, List.mem_append,
        List.mem_singleton]
      rintro c (hc | rfl)
      · exact ih (n / 10) (Nat.div_lt_self (by omega) (by omega)) c hc
      · exact digitChar_isDigit (Nat.mod_lt _ (by omega))

theorem natStr_inj {m n : Nat} (h : natStr m = natStr n) : m = n := by
  have hd : natDigits m = natDigits n := congrArg String.data h
  calc m = digitsVal (natDigits m) := (digitsVal_natDigits m).symm
    _ = digitsVal (natDigits n) := by rw [hd]
    _ = n := digitsVal_natDigits n

theorem natStr_data (n : Nat) : (natStr n).data = natDigits n := rfl

/-! ### `sympy.simplify`, modelled on the polynomial fragment

`_is_zero` in graph.py (lines 116-117) and the `simplify=True` path of
`format_gain` call `sp.simplify`.  The model expands the expression into
a canonical multivariate-polynomial normal form (sorted monomial list
with nonzero coefficients); expressions outside the polynomial fragment
(symbolic exponents, negative exponents such as `1/s`) are returned
unchanged, which matches sympy's behaviour on the expressions this
program constructs. -/

/-- A monomial: list of (variable, positive exponent), sorted by variable. -/
abbrev Mon := List (String × Nat)

/-- Byte-lexicographic comparison of character lists (kernel-evaluable
string ordering used for the canonical monomial order). -/
def charListLt : List Char → List Char → Bool
  | [], [] => false
  | [], _ :: _ => true
  | _ :: _, [] => false
  | c :: cs, d :: ds =>
    if c.toNat < d.toNat then true
    else if d.toNat < c.toNat then false
    else charListLt cs ds

/-- String ordering on the underlying character lists. -/
def strLt (a b : String) : Bool := charListLt a.data b.data

/-- Lexicographic comparison of monomials. -/
def monLt : Mon → Mon → Bool
  | [], [] => false
  | [], _ :: _ => true
  | _ :: _, [] => false
  | (a, i) :: as, (b, j) :: bs =>
    if strLt a b then true
    else if strLt b a then false
    else if i < j then true
    else if j < i then false
    else monLt as bs

/-- Fuel-bounded merge of two sorted monomials (structural recursion so
that the kernel can evaluate it). -/
def monMulAux : Nat → Mon → Mon → Mon
  | 0, p, q => p ++ q
  | _, [], q => q
  | _, p, [] => p
  | fuel + 1, (a, i) :: ps, (b, j) :: qs =>
    if strLt a b then (a, i) :: monMulAux fuel ps ((b, j) :: qs)
    else if strLt b a then (b, j) :: monMulAux fuel ((a, i) :: ps) qs
    else (a, i + j) :: monMulAux fuel ps qs

/-- Product of two sorted monomials (merge, adding exponents). -/
def monMul (p q : Mon) : Mon := monMulAux (p.length + q.length) p q

/-- A polynomial in normal form: monomials sorted by `monLt`, coefficients
nonzero. -/
abbrev Poly := List (Mon × Int)

/-- Fuel-bounded sorted merge of two normal-form polynomials (structural
recursion so that the kernel can evaluate it). -/
def polyAddAux : Nat → Poly → Poly → Poly
  | 0, p, q => p ++ q
  | _, [], q => q
  | _, p, [] => p
  | fuel + 1, (m, c) :: ps, (n, d) :: qs =>
    if monLt m n then (m, c) :: polyAddAux fuel ps ((n, d) :: qs)
    else if monLt n m then (n, d) :: polyAddAux fuel ((m, c) :: ps) qs
    else
      if c + d = 0 then polyAddAux fuel ps qs
      else (m, c + d) :: polyAddAux fuel ps qs

/-- Sum of two normal-form polynomials (sorted merge, combining equal
monomials and dropping zero coefficients). -/
def polyAdd (p q : Poly) : Poly := polyAddAux (p.length + q.length) p q

/-- Product of two normal-form polynomials. -/
def polyMul (p q : Poly) : Poly :=
  p.foldr (fun (t : Mon × Int) acc =>
    polyAdd (q.map (fun u => (monMul t.1 u.1, t.2 * u.2))) acc) []

/-- Power of a normal-form polynomial by a natural exponent. -/
def polyPow (p : Poly) : Nat → Poly
  | 0 => [([], 1)]
  | n + 1 => polyMul p (polyPow p n)

/-- Interpret an expression as a polynomial, failing outside the
polynomial fragment. -/
def toPoly : Expr → Option Poly
  | .const n => some (if n = 0 then [] else [([], n)])
  | .sym x => some [([(x, 1)], 1)]
  | .add a b => do pure (polyAdd (← toPoly a) (← toPoly b))
  | .mul a b => do pure (polyMul (← toPoly a) (← toPoly b))
  | .pow a b =>
    match b with
    | .const n =>
      if 0 ≤ n then do pure (polyPow (← toPoly a) n.toNat) else none
    | _ => none

/-- Canonical expression for a monomial. -/
def monToExpr : Mon → Expr
  | [] => ONE
  | [(x, e)] => if e = 1 then .sym x else .pow (.sym x) (.const e)
  | (x, e) :: rest =>
    .mul (if e = 1 then .sym x else .pow (.sym x) (.const e)) (monToExpr rest)

/-- Canonical expression for a polynomial term. -/
def termToExpr (t : Mon × Int) : Expr :=
  match t with
  | ([], c) => .const c
  | (m, c) => if c = 1 then monToExpr m else .mul (.const c) (monToExpr m)

/-- Canonical expression for a normal-form polynomial. -/
def polyToExpr : Poly → Expr
  | [] => ZERO
  | [t] => termToExpr t
  | t :: rest => .add (termToExpr t) (polyToExpr rest)

/-- Models `sympy.simplify`: polynomial expressions are expanded and
collected into a canonical normal form; non-polynomial expressions are
returned unchanged. -/
def simplifyE (e : Expr) : Expr :=
  match toPoly e with
  | some p => polyToExpr p
  | none => e

/-- `_is_zero` (graph.py lines 116-117): `bool(sp.simplify(expr) == 0)`. -/
def _is_zero (expr : Expr) : Bool := simplifyE expr == ZERO

/-! ### String rendering of expressions

Models sympy's default `str` printer on the fragment this program
produces.  In particular `Pow(b, -1)` prints as `1/b` (so `ONE / s`
prints as `"1/s"`), other powers as `b**e` with negative exponents
parenthesised, and additive/multiplicative subterms parenthesised as the
sympy printer does. -/

/-- Parenthesise the rendering `s` of a multiplication factor `e`. -/
def mulPar (e : Expr) (s : String) : String :=
  match e with
  | .add _ _ => "(" ++ s ++ ")"
  | _ => s

/-- Parenthesise the rendering `s` of a reciprocal's denominator `e`. -/
def denPar (e : Expr) (s : String) : String :=
  match e with
  | .sym _ => s
  | .const _ => s
  | _ => "(" ++ s ++ ")"

/-- Parenthesise the rendering `s` of a power's base or exponent `e`. -/
def powPar (e : Expr) (s : String) : String :=
  match e with
  | .sym _ => s
  | .const n => if n < 0 then "(" ++ s ++ ")" else s
  | _ => "(" ++ s ++ ")"

/-- Default string form of an expression (sympy `str(expr)`). -/
def exprStr : Expr → String
  | .const n => intStr n
  | .sym x => x
  | .add a b => exprStr a ++ " + " ++ exprStr b
  | .mul a b => mulPar a (exprStr a) ++ "*" ++ mulPar b (exprStr b)
  | .pow b e =>
    if e = .const (-1) then "1/" ++ denPar b (exprStr b)
    else powPar b (exprStr b) ++ "**" ++ powPar e (exprStr e)

/-- Models sympy `Expr.is_number`: true when the expression contains no
free symbols. -/
def is_number : Expr → Bool
  | .const _ => true
  | .sym _ => false
  | .add a b => is_number a && is_number b
  | .mul a b => is_number a && is_number b
  | .pow a b => is_number a && is_number b

/-! ### Exact rational arithmetic

`Q` is an unnormalised integer fraction (denominator kept positive by
every operation below); it carries the exact rational values that the
numeric-formatting path of `format_gain` computes with.  It replaces the
arbitrary-precision value of `expr.evalf(...)`; the binary rounding of
the intermediate Python `float` is not modelled. -/

structure Q where
  num : Int
  den : Int
deriving DecidableEq, Repr

def Q.ofInt (n : Int) : Q := ⟨n, 1⟩

def Q.addQ (a b : Q) : Q := ⟨a.num * b.den + b.num * a.den, a.den * b.den⟩

def Q.mulQ (a b : Q) : Q := ⟨a.num * b.num, a.den * b.den⟩

def Q.powNat (a : Q) : Nat → Q
  | 0 => ⟨1, 1⟩
  | k + 1 => Q.mulQ a (Q.powNat a k)

/-- Reciprocal, keeping the denominator positive (caller excludes zero). -/
def Q.invQ (a : Q) : Q := if a.num < 0 then ⟨-a.den, -a.num⟩ else ⟨a.den, a.num⟩

def Q.leQ (a b : Q) : Bool := decide (a.num * b.den ≤ b.num * a.den)

def Q.isZeroQ (a : Q) : Bool := a.num == 0

def Q.isNegQ (a : Q) : Bool := decide (a.num < 0)

def Q.absQ (a : Q) : Q := ⟨(a.num.natAbs : Int), a.den⟩

def Q.floorQ (a : Q) : Int := Int.fdiv a.num a.den

/-- Whether the fraction is an integer. -/
def Q.isIntQ (a : Q) : Bool := a.num % a.den == 0

/-- The integer value of an integral fraction. -/
def Q.toIntQ (a : Q) : Int := a.num / a.den

/-- Multiply by `10^k` for an integer `k`. -/
def Q.mulPow10 (a : Q) (k : Int) : Q :=
  if 0 ≤ k then ⟨a.num * (10 : Int) ^ k.toNat, a.den⟩
  else ⟨a.num, a.den * (10 : Int) ^ (-k).toNat⟩

/-- Models `float(expr.evalf(...))` for a pure-number expression: exact
rational evaluation.  `none` models the evaluations whose `float`
conversion raises (`TypeError`/`ValueError`), e.g. the complex-infinity
`zoo` arising from a zero base with negative exponent.  Non-integer
exponents are outside the modelled fragment and also map to `none`. -/
def evalNum : Expr → Option Q
  | .const n => some (Q.ofInt n)
  | .sym _ => none
  | .add a b => do pure (Q.addQ (← evalNum a) (← evalNum b))
  | .mul a b => do pure (Q.mulQ (← evalNum a) (← evalNum b))
  | .pow a b => do
    let qa ← evalNum a
    let qb ← evalNum b
    if qb.isIntQ then
      let k := qb.toIntQ
      if 0 ≤ k then pure (qa.powNat k.toNat)
      else if qa.isZeroQ then none
      else pure (qa.powNat (-k).toNat).invQ
    else none

/-- Round a rational to the nearest integer, ties to even (the rounding
used by Python's float formatting). -/
def rndHE (a : Q) : Int :=
  let f : Int := a.floorQ
  let rn : Int := a.num - f * a.den
  if 2 * rn < a.den then f
  else if a.den < 2 * rn then f + 1
  else if f % 2 = 0 then f else f + 1

/-- Least `k ≥ 1` with `a * 10^k ≥ 1`, for `0 < a < 1` (fuel-bounded). -/
def findK (a : Q) : Nat → Nat
  | 0 => 1
  | fuel + 1 =>
    if Q.leQ ⟨1, 1⟩ (a.mulQ ⟨10, 1⟩) then 1
    else findK (a.mulQ ⟨10, 1⟩) fuel + 1

/-- Decimal exponent of a positive rational: the `e` with
`10^e ≤ a < 10^(e+1)`. -/
def decExp (a : Q) : Int :=
  if Q.leQ ⟨1, 1⟩ a then ((natDigits a.floorQ.toNat).length - 1 : Nat)
  else -(findK a a.den.natAbs : Int)

/-- Strip trailing `'0'` characters. -/
def stripZeros (l : List Char) : List Char :=
  (l.reverse.dropWhile (· = '0')).reverse

/-- Render a list of characters as a string. -/
def chStr (l : List Char) : String := ⟨l⟩

/-- Models CPython's `f"{v:.{p}g}"` general floating-point formatting of
a (nonnegative-precision) value, computed on exact rationals: round to
`max p 1` significant digits (ties to even), use scientific notation
when the decimal exponent is below -4 or at least the precision, and
strip trailing zeros. -/
def gFormat (v : Q) (p : Nat) : String :=
  let prec := max p 1
  if v.isZeroQ then "0"
  else
    let sign := if v.isNegQ then "-" else ""
    let a : Q := v.absQ
    let e : Int := decExp a
    let m : Int := rndHE (a.mulPow10 ((prec : Int) - 1 - e))
    let carried : Bool := m = (10 : Int) ^ prec
    let m : Int := if carried then (10 : Int) ^ (prec - 1) else m
    let e : Int := if carried then e + 1 else e
    let digits : List Char := natDigits m.toNat
    if e < -4 ∨ (prec : Int) ≤ e then
      let mant :=
        match digits with
        | [] => "0"
        | d :: rest =>
          let frac := stripZeros rest
          if frac = [] then chStr [d] else chStr [d] ++ "." ++ chStr frac
      let esign := if e < 0 then "-" else "+"
      let eabs := e.natAbs
      let estr := if eabs < 10 then "0" ++ natStr eabs else natStr eabs
      sign ++ mant ++ "e" ++ esign ++ estr
    else if 0 ≤ e then
      let ipart := digits.take (e.toNat + 1)
      let frac := stripZeros (digits.drop (e.toNat + 1))
      if frac = [] then sign ++ chStr ipart
      else sign ++ chStr ipart ++ "." ++ chStr frac
    else
      let frac := stripZeros digits
      sign ++ "0." ++ chStr (List.replicate (e.natAbs - 1) '0') ++ chStr frac

/-- `format_gain` (render.py lines 65-81).  `simplifyFlag` models the
`simplify` keyword; `float_precision` is modelled as an optional natural
number (the CLI enforces `min=1` on this option).  The `try/except`
around `float(expr.evalf(...))` is modelled by `evalNum` returning
`none`, taking the fallback branch.  The final `gain is ONE` identity
test is modelled by equality (sympy's `Integer(1)` is interned). -/
def format_gain (gain : Expr) (simplifyFlag : Bool := false)
    (float_precision : Option Nat := none) : String :=
  let expr := if simplifyFlag then simplifyE gain else gain
  if float_precision.isSome && is_number expr then
    match evalNum expr with
    | some numeric => gFormat numeric (float_precision.getD 0)
    | none => exprStr expr
  else
    let label := exprStr expr
    if label = "1" && gain == ONE then "1" else label

/-! ### Directed graphs with attribute dictionaries

Models `networkx.DiGraph`: insertion-ordered node and edge lists, each
entry carrying a string-keyed attribute dictionary, with networkx's
upsert semantics for re-adding nodes/edges and implicit creation of an
edge's missing endpoints. -/

/-- An attribute value: a string (types, labels, style values) or a
symbolic expression (edge gains). -/
inductive AttrVal where
  | str : String → AttrVal
  | expr : Expr → AttrVal
deriving DecidableEq, Repr

/-- An insertion-ordered attribute dictionary. -/
abbrev Attrs := List (String × AttrVal)

/-- Dictionary lookup (`data.get(k)` / `data[k]`). -/
def getAttr (a : Attrs) (k : String) : Option AttrVal :=
  (a.find? (fun p => p.1 == k)).map (·.2)

/-- Dictionary assignment (`data[k] = v`): replaces in place, appends if
absent. -/
def setAttr (a : Attrs) (k : String) (v : AttrVal) : Attrs :=
  if (a.find? (fun p => p.1 == k)).isSome then
    a.map (fun p => if p.1 == k then (k, v) else p)
  else a ++ [(k, v)]

/-- `data.setdefault(k, v)`: assigns only when the key is absent. -/
def setdefaultAttr (a : Attrs) (k : String) (v : AttrVal) : Attrs :=
  if (getAttr a k).isSome then a else a ++ [(k, v)]

/-- A directed graph: insertion-ordered nodes `(id, attrs)` and edges
`(src, dst, attrs)`. -/
structure Graph where
  nodes : List (String × Attrs)
  edges : List (String × String × Attrs)
deriving DecidableEq, Repr

/-- The empty graph (`nx.DiGraph()`). -/
def Graph.empty : Graph := ⟨[], []⟩

/-- Whether a node id is present. -/
def Graph.hasNode (g : Graph) (id : String) : Bool :=
  g.nodes.any (fun p => p.1 == id)

/-- Attributes of a node, if present. -/
def Graph.findNode (g : Graph) (id : String) : Option Attrs :=
  (g.nodes.find? (fun p => p.1 == id)).map (·.2)

/-- Whether an edge `src → dst` is present. -/
def Graph.hasEdge (g : Graph) (src dst : String) : Bool :=
  g.edges.any (fun e => e.1 == src && e.2.1 == dst)

/-- Attributes of an edge, if present. -/
def Graph.findEdge (g : Graph) (src dst : String) : Option Attrs :=
  (g.edges.find? (fun e => e.1 == src && e.2.1 == dst)).map (·.2.2)

/-- `graph.add_node(id, **attrs)`: upsert — a fresh node is appended, an
existing node has the given attributes merged in. -/
def Graph.addNodeAttrs (g : Graph) (id : String) (attrs : Attrs) : Graph :=
  if g.hasNode id then
    { g with nodes := g.nodes.map (fun p =>
        if p.1 == id then (p.1, attrs.foldl (fun a kv => setAttr a kv.1 kv.2) p.2) else p) }
  else { g with nodes := g.nodes ++ [(id, attrs)] }

/-- `graph.add_node(id, type=ty, label=lb)` as used by the builders. -/
def Graph.addNode (g : Graph) (id ty lb : String) : Graph :=
  g.addNodeAttrs id [("type", .str ty), ("label", .str lb)]

/-- Append the node with empty attributes when absent (networkx creates
an edge's missing endpoints this way). -/
def Graph.ensureNode (g : Graph) (id : String) : Graph :=
  if g.hasNode id then g else { g with nodes := g.nodes ++ [(id, [])] }

/-- `graph.add_edge(src, dst, **attrs)`: creates missing endpoint nodes,
then upserts the edge (a fresh edge is appended, an existing edge has
the attributes merged in). -/
def Graph.addEdgeAttrs (g : Graph) (src dst : String) (attrs : Attrs) : Graph :=
  let g := (g.ensureNode src).ensureNode dst
  if g.hasEdge src dst then
    { g with edges := g.edges.map (fun e =>
        if e.1 == src && e.2.1 == dst then
          (e.1, e.2.1, attrs.foldl (fun a kv => setAttr a kv.1 kv.2) e.2.2)
        else e) }
  else { g with edges := g.edges ++ [(src, dst, attrs)] }

/-! ### The state-space model (`src/ssschem/model.py`) -/

/-- Models `sympy.Matrix`: a rectangular array of expressions. -/
structure Mat where
  entries : List (List Expr)
  rect : (entries.all (fun r => r.length = (entries.headD []).length)) = true
deriving DecidableEq

/-- Number of rows (`Matrix.rows`). -/
def Mat.rows (m : Mat) : Nat := m.entries.length

/-- Number of columns (`Matrix.cols`). -/
def Mat.cols (m : Mat) : Nat := (m.entries.headD []).length

/-- Entry access `m[i, j]` (in-range access is all the code performs). -/
def Mat.get (m : Mat) (i j : Nat) : Expr :=
  (m.entries.getD i []).getD j ZERO

/-- `StateSpaceModel` (model.py lines 9-38): the dimension invariants of
`__post_init__` are carried as fields, since the frozen dataclass raises
at construction on violation — no invalid instance exists. -/
structure StateSpaceModel where
  name : String
  A : Mat
  b : Mat
  c : Mat
  d : Expr
  /-- The source field is called `variables` (a reserved word here). -/
  vars : List String
  A_square : A.cols = A.rows
  b_shape : b.rows = A.rows ∧ b.cols = 1
  c_shape : c.rows = 1 ∧ c.cols = A.rows

/-- `StateSpaceModel.order`: the number of states `n = A.rows`. -/
def StateSpaceModel.order (m : StateSpaceModel) : Nat := m.A.rows

/-- Construction of a `StateSpaceModel`, performing the `__post_init__`
validation (model.py lines 20-30): returns the validation error message
instead of raising. -/
def mkStateSpaceModel (name : String) (A b c : Mat) (d : Expr)
    (vars : List String) : Except String StateSpaceModel :=
  if hA : A.cols = A.rows then
    if hb : b.rows = A.rows ∧ b.cols = 1 then
      if hc : c.rows = 1 ∧ c.cols = A.rows then
        .ok ⟨name, A, b, c, d, vars, hA, hb, hc⟩
      else .error ("Vector c must have shape (1, " ++ natStr A.rows ++ ")")
    else .error ("Vector b must have shape (" ++ natStr A.rows ++ ", 1)")
  else .error "Matrix A must be square"

/-! ### The graph builders (`src/ssschem/graph.py`) -/

/-- `_state_id` (graph.py lines 120-121). -/
def _state_id (index : Nat) : String := "x" ++ natStr (index + 1)

/-- `_xdot_id` (graph.py lines 124-125). -/
def _xdot_id (index : Nat) : String := "xdot" ++ natStr (index + 1)

/-- `_sum_id` (graph.py lines 128-129). -/
def _sum_id (index : Nat) : String := "sum" ++ natStr (index + 1)

/-- `_integrator_id` (graph.py lines 132-133). -/
def _integrator_id (index : Nat) : String := "int" ++ natStr (index + 1)

/-- `_state_label` (graph.py lines 136-137). -/
def _state_label (index : Nat) (unicode_labels : Bool) : String :=
  "x" ++ natStr (index + 1)

/-- `_xdot_label` (graph.py lines 140-143). -/
def _xdot_label (index : Nat) (unicode_labels : Bool) : String :=
  if unicode_labels then "ẋ" ++ natStr (index + 1)
  else "x_dot" ++ natStr (index + 1)

/-- `_sum_label` (graph.py lines 146-149). -/
def _sum_label (index : Nat) (unicode_labels : Bool) : String :=
  if unicode_labels then "Σ" ++ natStr (index + 1)
  else "sum" ++ natStr (index + 1)

/-- `_output_sum_label` (graph.py lines 152-155). -/
def _output_sum_label (unicode_labels : Bool) : String :=
  if unicode_labels then "Σ_y" else "sum_y"

/-- `_add_edge` (graph.py lines 110-113). -/
def _add_edge (graph : Graph) (src dst : String) (gain : Expr)
    (prune_zeros : Bool) : Graph :=
  if prune_zeros && _is_zero gain then graph
  else graph.addEdgeAttrs src dst [("gain", .expr gain)]

/-- `_add_state_edges` (graph.py lines 94-107). -/
def _add_state_edges (graph : Graph) (model : StateSpaceModel)
    (prune_zeros : Bool) (sum_node_fn : Nat → String) : Graph :=
  (List.range model.order).foldl (fun g row =>
    let g := (List.range model.order).foldl (fun g col =>
      _add_edge g (_state_id col) (sum_node_fn row) (model.A.get row col)
        prune_zeros) g
    _add_edge g "u" (sum_node_fn row) (model.b.get row 0) prune_zeros) graph

/-- `build_sfg_graph` (graph.py lines 36-60). -/
def build_sfg_graph (model : StateSpaceModel) (unicode_labels : Bool := false)
    (prune_zeros : Bool := false) : Graph :=
  let graph := Graph.empty
  let graph := graph.addNode "u" "input" "u"
  let graph := graph.addNode "y" "output" "y"
  let graph := (List.range model.order).foldl (fun g idx =>
    let g := g.addNode (_state_id idx) "state" (_state_label idx unicode_labels)
    g.addNode (_xdot_id idx) "xdot" (_xdot_label idx unicode_labels)) graph
  let graph := _add_state_edges graph model prune_zeros (fun idx => _xdot_id idx)
  let graph := (List.range model.order).foldl (fun g idx =>
    let g := _add_edge g (_xdot_id idx) (_state_id idx) oneOverS false
    _add_edge g (_state_id idx) "y" (model.c.get 0 idx) prune_zeros) graph
  if model.d ≠ ZERO then _add_edge graph "u" "y" model.d prune_zeros
  else graph

/-- `build_integrator_graph` (graph.py lines 63-91). -/
def build_integrator_graph (model : StateSpaceModel)
    (unicode_labels : Bool := false) (prune_zeros : Bool := false) : Graph :=
  let graph := Graph.empty
  let graph := graph.addNode "u" "input" "u"
  let graph := graph.addNode "y" "output" "y"
  let graph := graph.addNode "ysum" "sum" (_output_sum_label unicode_labels)
  let graph := _add_edge graph "ysum" "y" ONE false
  let graph := (List.range model.order).foldl (fun g idx =>
    let g := g.addNode (_sum_id idx) "sum" (_sum_label idx unicode_labels)
    let g := g.addNode (_integrator_id idx) "int" "1/s"
    let g := g.addNode (_state_id idx) "state" (_state_label idx unicode_labels)
    let g := _add_edge g (_sum_id idx) (_integrator_id idx) ONE false
    _add_edge g (_integrator_id idx) (_state_id idx) ONE false) graph
  let graph := _add_state_edges graph model prune_zeros (fun idx => _sum_id idx)
  let graph := (List.range model.order).foldl (fun g idx =>
    _add_edge g (_state_id idx) "ysum" (model.c.get 0 idx) prune_zeros) graph
  if model.d ≠ ZERO then _add_edge graph "u" "ysum" model.d prune_zeros
  else graph

/-- `GraphStyle` (graph.py lines 16-18). -/
inductive GraphStyle where
  | sfg
  | integrator
deriving DecidableEq, Repr

/-- The value passed as `build_graph`'s `style` argument: either a
member of the `GraphStyle` enumeration (compared by identity in the
source: `style is GraphStyle.SFG`) or any other value, carried as its
string rendering. -/
inductive StyleArg where
  | member : GraphStyle → StyleArg
  | other : String → StyleArg
deriving DecidableEq, Repr

/-- `build_graph` (graph.py lines 21-33): dispatches on `style`; any
value that is not one of the two enumeration members raises
`ValueError(f"Unsupported graph style '{style}'")`, modelled as
`Except.error`. -/
def build_graph (model : StateSpaceModel) (style : StyleArg)
    (unicode_labels : Bool := false) (prune_zeros : Bool := false) :
    Except String Graph :=
  match style with
  | .member .sfg => .ok (build_sfg_graph model unicode_labels prune_zeros)
  | .member .integrator =>
    .ok (build_integrator_graph model unicode_labels prune_zeros)
  | .other v => .error ("Unsupported graph style \x27" ++ v ++ "\x27")

/-! ### The emitter (`src/ssschem/render.py`) -/

/-- `NODE_STYLES` (render.py lines 15-22), as a lookup returning the
per-type attribute list (`NODE_STYLES.get(t, {})`). -/
def NODE_STYLES (t : String) : Attrs :=
  if t = "input" then
    [("shape", .str "circle"), ("style", .str "filled"),
     ("fillcolor", .str "#dbeafe")]
  else if t = "output" then
    [("shape", .str "doublecircle"), ("style", .str "filled"),
     ("fillcolor", .str "#dcfce7")]
  else if t = "state" then [("shape", .str "circle")]
  else if t = "xdot" then [("shape", .str "circle"), ("style", .str "dashed")]
  else if t = "sum" then
    [("shape", .str "circle"), ("style", .str "filled"),
     ("fillcolor", .str "#fef3c7")]
  else if t = "int" then [("shape", .str "box")]
  else []

/-- The styling loop body for one node (render.py lines 33-37): apply
the per-type defaults with `setdefault`, then default the label to the
node id. -/
def styleNodeData (nid : String) (data : Attrs) : Attrs :=
  let styles :=
    match getAttr data "type" with
    | some (.str t) => NODE_STYLES t
    | _ => []
  let data := styles.foldl (fun a kv => setdefaultAttr a kv.1 kv.2) data
  setdefaultAttr data "label" (.str nid)

/-- `data.get("gain", ONE)` (render.py line 39); a non-expression gain
attribute never occurs (the builders only store expressions). -/
def gainOf (data : Attrs) : Expr :=
  match getAttr data "gain" with
  | some (.expr e) => e
  | _ => ONE

/-- The styling loop body for one edge (render.py lines 38-40): the
label is overwritten with the formatted gain. -/
def styleEdgeData (simplifyFlag : Bool) (float_precision : Option Nat)
    (data : Attrs) : Attrs :=
  setAttr data "label"
    (.str (format_gain (gainOf data) simplifyFlag float_precision))

/-- The styled working copy built by `graph_to_dot` (render.py lines
32-40): node and edge attribute dictionaries of the copy are updated;
the input graph is untouched. -/
def styleGraph (g : Graph) (simplifyFlag : Bool)
    (float_precision : Option Nat) : Graph :=
  ⟨g.nodes.map (fun p => (p.1, styleNodeData p.1 p.2)),
   g.edges.map (fun e => (e.1, e.2.1, styleEdgeData simplifyFlag float_precision e.2.2))⟩

/-- Serialisation of the styled graph (models
`nx.drawing.nx_pydot.to_pydot(...).to_string()` with the rank direction
set, render.py lines 41-43). -/
def dotString (g : Graph) (rankdir : String) : String :=
  let attrStr : AttrVal → String := fun v =>
    match v with
    | .str s => "\"" ++ s ++ "\""
    | .expr e => "\"" ++ exprStr e ++ "\""
  let attrsStr : Attrs → String := fun a =>
    String.intercalate ", " (a.map (fun kv => kv.1 ++ "=" ++ attrStr kv.2))
  let nodeLines := g.nodes.map (fun p => p.1 ++ " [" ++ attrsStr p.2 ++ "];")
  let edgeLines := g.edges.map (fun e =>
    e.1 ++ " -> " ++ e.2.1 ++ " [" ++ attrsStr e.2.2 ++ "];")
  "digraph \x7b\nrankdir=" ++ rankdir ++ ";\n" ++
    String.intercalate "\n" (nodeLines ++ edgeLines) ++ "\n\x7d\n"

/-- `graph.copy()` (render.py line 32): a fresh graph whose node and
edge attribute dictionaries are independent copies (networkx `copy()`
rebuilds the adjacency and attribute dictionaries; attribute values are
shared, but the styling loops only ever assign into the copied
dictionaries). -/
def Graph.copy (g : Graph) : Graph := ⟨g.nodes, g.edges⟩

/-- `graph_to_dot` (render.py lines 25-43), with the state of the input
graph after the call as the first component: the function works on the
styled copy, and the only operations touching the input graph are reads. -/
def graph_to_dot_run (graph : Graph) (rankdir : String := "LR")
    (simplifyFlag : Bool := false) (float_precision : Option Nat := none) :
    Graph × String :=
  let styled := graph.copy
  let styled := styleGraph styled simplifyFlag float_precision
  (graph, dotString styled rankdir)

/-- `graph_to_dot` (render.py lines 25-43): the produced DOT text. -/
def graph_to_dot (graph : Graph) (rankdir : String := "LR")
    (simplifyFlag : Bool := false) (float_precision : Option Nat := none) :
    String :=
  (graph_to_dot_run graph rankdir simplifyFlag float_precision).2

/-! ## Proof infrastructure

The builders interleave node insertion and edge insertion.  Node
operations never touch the edge list, and `_add_edge`'s effect on the
edge list does not depend on the node list, so the edge list of a built
graph is a fold of elementary edge insertions (`addE` below) over an
explicit "plan".  Symmetrically for the node list. -/

abbrev EdgeList := List (String × String × Attrs)

/-- Edge lookup on a plain edge list. -/
def findE (es : EdgeList) (src dst : String) : Option Attrs :=
  (es.find? (fun e => e.1 == src && e.2.1 == dst)).map (·.2.2)

/-- The edge-list component of `Graph.addEdgeAttrs`. -/
def edgesUpsert (es : EdgeList) (src dst : String) (attrs : Attrs) : EdgeList :=
  if es.any (fun e => e.1 == src && e.2.1 == dst) then
    es.map (fun e =>
      if e.1 == src && e.2.1 == dst then
        (e.1, e.2.1, attrs.foldl (fun a kv => setAttr a kv.1 kv.2) e.2.2)
      else e)
  else es ++ [(src, dst, attrs)]

/-- One planned edge insertion: endpoints, gain, and the pruning flag
that `_add_edge` was called with. -/
structure PlanE where
  src : String
  dst : String
  gain : Expr
  prune : Bool
deriving DecidableEq, Repr

/-- The edge-list effect of `_add_edge`. -/
def addE (es : EdgeList) (e : PlanE) : EdgeList :=
  if e.prune && _is_zero e.gain then es
  else edgesUpsert es e.src e.dst [("gain", .expr e.gain)]

/-- Fold a plan over an edge list. -/
def planAddE (es : EdgeList) (l : List PlanE) : EdgeList := l.foldl addE es

theorem findEdge_eq_findE (g : Graph) (s t : String) :
    g.findEdge s t = findE g.edges s t := rfl

theorem addNodeAttrs_edges (g : Graph) (id : String) (a : Attrs) :
    (g.addNodeAttrs id a).edges = g.edges := by
  unfold Graph.addNodeAttrs
  by_cases h : g.hasNode id = true <;> simp [h]

theorem addNode_edges (g : Graph) (id ty lb : String) :
    (g.addNode id ty lb).edges = g.edges := addNodeAttrs_edges ..

theorem ensureNode_edges (g : Graph) (id : String) :
    (g.ensureNode id).edges = g.edges := by
  unfold Graph.ensureNode
  by_cases h : g.hasNode id = true <;> simp [h]

theorem addEdgeAttrs_edges (g : Graph) (s t : String) (a : Attrs) :
    (g.addEdgeAttrs s t a).edges = edgesUpsert g.edges s t a := by
  unfold Graph.addEdgeAttrs edgesUpsert Graph.hasEdge
  by_cases h : ((g.ensureNode s).ensureNode t).edges.any
      (fun e => e.1 == s && e.2.1 == t) = true <;>
    simp_all [ensureNode_edges]

theorem _add_edge_edges (g : Graph) (s t : String) (gn : Expr) (p : Bool) :
    (_add_edge g s t gn p).edges = addE g.edges ⟨s, t, gn, p⟩ := by
  unfold _add_edge addE
  by_cases h : (p && _is_zero gn) = true <;> simp [h, addEdgeAttrs_edges]

/-- `find?` is unchanged by a map that fixes every element matching the
predicate and preserves the predicate elsewhere. -/
theorem find?_map_congr {α : Type} (es : List α) (f : α → α) (p : α → Bool)
    (h1 : ∀ e, p (f e) = p e) (h2 : ∀ e, p e = true → f e = e) :
    (es.map f).find? p = es.find? p := by
  induction es with
  | nil => rfl
  | cons e es ih =>
    simp only [List.map_cons, List.find?_cons]
    by_cases hp : p e = true
    · simp [h1 e, hp, h2 e hp]
    · simp only [Bool.not_eq_true] at hp
      simp [h1 e, hp, ih]

/-- `findE` after an insertion at a different endpoint pair. -/
theorem findE_edgesUpsert_ne (es : EdgeList) {s t s2 t2 : String} (a : Attrs)
    (h : ¬(s = s2 ∧ t = t2)) :
    findE (edgesUpsert es s t a) s2 t2 = findE es s2 t2 := by
  have hne : ((s : String) == s2 && (t : String) == t2) = false := by
    simp only [Bool.and_eq_false_iff, beq_eq_false_iff_ne]
    by_contra hcon
    push_neg at hcon
    exact h ⟨hcon.1, hcon.2⟩
  unfold edgesUpsert
  by_cases hp : es.any (fun e => e.1 == s && e.2.1 == t) = true
  · simp only [hp, if_true]
    unfold findE
    rw [find?_map_congr]
    · intro e
      by_cases hc : (e.1 == s && e.2.1 == t) = true
      · simp only [Bool.and_eq_true, beq_iff_eq] at hc
        simp [hc.1, hc.2, hne]
      · simp [hc]
    · intro e hpe
      simp only [Bool.and_eq_true, beq_iff_eq] at hpe
      by_cases hc : (e.1 == s && e.2.1 == t) = true
      · simp only [Bool.and_eq_true, beq_iff_eq] at hc
        rw [hc.1, hc.2] at hpe
        rw [hpe.1, hpe.2] at hne
        simp at hne
      · simp [hc]
  · simp only [Bool.not_eq_true] at hp
    simp only [hp, Bool.false_eq_true, if_false]
    unfold findE
    rw [List.find?_append]
    have hsing : List.find? (fun e => e.1 == s2 && e.2.1 == t2) [(s, t, a)] = none := by
      simp [List.find?_singleton, hne]
    simp [hsing]

/-- `findE` after inserting a fresh edge at the queried pair. -/
theorem findE_edgesUpsert_self (es : EdgeList) (s t : String) (a : Attrs)
    (h : findE es s t = none) :
    findE (edgesUpsert es s t a) s t = some a := by
  unfold edgesUpsert
  have hnone : es.find? (fun e => e.1 == s && e.2.1 == t) = none := by
    unfold findE at h
    cases hf : es.find? (fun e => e.1 == s && e.2.1 == t) with
    | none => rfl
    | some e => rw [hf] at h; simp at h
  have hany : es.any (fun e => e.1 == s && e.2.1 == t) = false := by
    rw [List.find?_eq_none] at hnone
    rw [List.any_eq_false]
    exact hnone
  simp only [hany, Bool.false_eq_true, if_false]
  unfold findE
  rw [List.find?_append, hnone]
  simp

theorem addE_findE_ne (es : EdgeList) (e : PlanE) {s t : String}
    (h : ¬(e.src = s ∧ e.dst = t)) :
    findE (addE es e) s t = findE es s t := by
  unfold addE
  by_cases hp : (e.prune && _is_zero e.gain) = true
  · simp [hp]
  · simp only [hp, Bool.false_eq_true, if_false]
    exact findE_edgesUpsert_ne es _ h

theorem addE_findE_self (es : EdgeList) (e : PlanE)
    (h : findE es e.src e.dst = none) :
    findE (addE es e) e.src e.dst =
      if e.prune && _is_zero e.gain then none
      else some [("gain", .expr e.gain)] := by
  unfold addE
  by_cases hp : (e.prune && _is_zero e.gain) = true
  · simp [hp, h]
  · simp only [hp, Bool.false_eq_true, if_false]
    exact findE_edgesUpsert_self es e.src e.dst _ h

theorem planAddE_cons (es : EdgeList) (e : PlanE) (l : List PlanE) :
    planAddE es (e :: l) = planAddE (addE es e) l := rfl

/-- A plan not mentioning a pair does not affect lookup at that pair. -/
theorem planAddE_findE_ne (l : List PlanE) (es : EdgeList) {s t : String}
    (h : ∀ e ∈ l, ¬(e.src = s ∧ e.dst = t)) :
    findE (planAddE es l) s t = findE es s t := by
  induction l generalizing es with
  | nil => rfl
  | cons e l ih =>
    rw [planAddE_cons,
      ih (addE es e) (fun e2 he2 => h e2 (List.mem_cons_of_mem _ he2)),
      addE_findE_ne es e (h e (List.mem_cons_self ..))]

/-- Distinct-pair plans behave like maps: lookup at a pair returns the
unique plan entry for that pair (pruned entries giving `none`), or falls
through to the initial edge list. -/
theorem planAddE_findE (l : List PlanE) (es : EdgeList) (s t : String)
    (hdist : l.Pairwise (fun a b => ¬(a.src = b.src ∧ a.dst = b.dst)))
    (hfresh : ∀ e ∈ l, findE es e.src e.dst = none) :
    findE (planAddE es l) s t =
      match l.find? (fun e => e.src == s && e.dst == t) with
      | some e =>
        if e.prune && _is_zero e.gain then none
        else some [("gain", .expr e.gain)]
      | none => findE es s t := by
  induction l generalizing es with
  | nil => rfl
  | cons e l ih =>
    rw [planAddE_cons]
    simp only [List.find?_cons]
    have hdl : l.Pairwise (fun a b => ¬(a.src = b.src ∧ a.dst = b.dst)) :=
      (List.pairwise_cons.mp hdist).2
    have hde : ∀ b ∈ l, ¬(e.src = b.src ∧ e.dst = b.dst) :=
      (List.pairwise_cons.mp hdist).1
    have hfl : ∀ e2 ∈ l, findE (addE es e) e2.src e2.dst = none := by
      intro e2 he2
      rw [addE_findE_ne es e (by
        intro hc
        exact hde e2 he2 ⟨hc.1, hc.2⟩)]
      exact hfresh e2 (List.mem_cons_of_mem _ he2)
    by_cases hm : (e.src == s && e.dst == t) = true
    · have hm2 := hm
      simp only [Bool.and_eq_true, beq_iff_eq] at hm2
      obtain ⟨rfl, rfl⟩ := hm2
      simp only [hm, if_true]
      rw [planAddE_findE_ne l (addE es e) (fun e2 he2 hc =>
        hde e2 he2 ⟨hc.1.symm, hc.2.symm⟩)]
      exact addE_findE_self es e (hfresh e (List.mem_cons_self ..))
    · simp only [hm, Bool.false_eq_true, if_false]
      rw [ih (addE es e) hdl hfl]
      cases hf : l.find? (fun e2 => e2.src == s && e2.dst == t) with
      | some e2 => rfl
      | none =>
        simp only []
        exact addE_findE_ne es e (by
          intro hc
          rw [hc.1, hc.2] at hm
          simp at hm)

/-! ### The builders' edge lists as explicit plans -/

theorem planAddE_append (es : EdgeList) (l1 l2 : List PlanE) :
    planAddE es (l1 ++ l2) = planAddE (planAddE es l1) l2 :=
  List.foldl_append ..

theorem foldl_const {α β : Type} (l : List β) (a : α) :
    l.foldl (fun a _ => a) a = a := by
  induction l with
  | nil => rfl
  | cons x l ih => simpa using ih

/-- Project a graph fold to an edge-list fold. -/
theorem foldl_edges {β : Type} (l : List β) (f : Graph → β → Graph)
    (fe : EdgeList → β → EdgeList)
    (h : ∀ g x, (f g x).edges = fe g.edges x) :
    ∀ g : Graph, (l.foldl f g).edges = l.foldl fe g.edges := by
  induction l with
  | nil => intro g; rfl
  | cons x l ih => intro g; simp only [List.foldl_cons, ih, h]

theorem foldl_addE_map {β : Type} (l : List β) (f : β → PlanE) (es : EdgeList) :
    l.foldl (fun es x => addE es (f x)) es = planAddE es (l.map f) := by
  induction l generalizing es with
  | nil => rfl
  | cons x l ih => simp only [List.foldl_cons, List.map_cons, planAddE_cons, ih]

theorem foldl_planAddE_flatMap {β : Type} (l : List β) (f : β → List PlanE)
    (es : EdgeList) :
    l.foldl (fun es x => planAddE es (f x)) es = planAddE es (l.flatMap f) := by
  induction l generalizing es with
  | nil => rfl
  | cons x l ih =>
    simp only [List.foldl_cons, List.flatMap_cons, planAddE_append, ih]

/-- The edge plan of `_add_state_edges`: row by row, the `A[row, col]`
edges then the `b[row]` edge, all with the caller's pruning flag. -/
def statePlan (m : StateSpaceModel) (p : Bool) (fn : Nat → String) :
    List PlanE :=
  (List.range m.order).flatMap (fun row =>
    ((List.range m.order).map (fun col =>
      ⟨_state_id col, fn row, m.A.get row col, p⟩)) ++
    [⟨"u", fn row, m.b.get row 0, p⟩])

theorem _add_state_edges_edges (g : Graph) (m : StateSpaceModel) (p : Bool)
    (fn : Nat → String) :
    (_add_state_edges g m p fn).edges = planAddE g.edges (statePlan m p fn) := by
  unfold _add_state_edges statePlan
  rw [foldl_edges _ _ (fun es row =>
    planAddE es (((List.range m.order).map (fun col =>
      (⟨_state_id col, fn row, m.A.get row col, p⟩ : PlanE))) ++
      [⟨"u", fn row, m.b.get row 0, p⟩]))]
  · exact foldl_planAddE_flatMap ..
  · intro g2 row
    rw [planAddE_append, _add_edge_edges,
      foldl_edges _ _ (fun es col => addE es
        (⟨_state_id col, fn row, m.A.get row col, p⟩ : PlanE))
        (fun g3 col => _add_edge_edges ..) g2,
      foldl_addE_map]
    rfl

/-- The full edge plan of `build_sfg_graph`. -/
def sfgPlan (m : StateSpaceModel) (p : Bool) : List PlanE :=
  statePlan m p _xdot_id ++
  (List.range m.order).flatMap (fun i =>
    [⟨_xdot_id i, _state_id i, oneOverS, false⟩,
     ⟨_state_id i, "y", m.c.get 0 i, p⟩]) ++
  (if m.d = ZERO then [] else [⟨"u", "y", m.d, p⟩])

/-- The full edge plan of `build_integrator_graph`. -/
def intPlan (m : StateSpaceModel) (p : Bool) : List PlanE :=
  ⟨"ysum", "y", ONE, false⟩ ::
  ((List.range m.order).flatMap (fun i =>
    [⟨_sum_id i, _integrator_id i, ONE, false⟩,
     ⟨_integrator_id i, _state_id i, ONE, false⟩]) ++
   statePlan m p _sum_id ++
   (List.range m.order).map (fun i => ⟨_state_id i, "ysum", m.c.get 0 i, p⟩) ++
   (if m.d = ZERO then [] else [⟨"u", "ysum", m.d, p⟩]))

theorem build_sfg_graph_edges (m : StateSpaceModel) (uf p : Bool) :
    (build_sfg_graph m uf p).edges = planAddE [] (sfgPlan m p) := by
  unfold build_sfg_graph sfgPlan
  simp only []
  rw [planAddE_append, planAddE_append]
  have h0 : ((List.range m.order).foldl (fun g idx =>
      (g.addNode (_state_id idx) "state" (_state_label idx uf)).addNode
        (_xdot_id idx) "xdot" (_xdot_label idx uf))
      ((Graph.empty.addNode "u" "input" "u").addNode "y" "output" "y")).edges
      = [] := by
    rw [foldl_edges _ _ (fun es _ => es) (fun g idx => by
      simp only [addNode_edges])]
    simp [foldl_const, addNode_edges, Graph.empty]
  have h1 := _add_state_edges_edges ((List.range m.order).foldl (fun g idx =>
      (g.addNode (_state_id idx) "state" (_state_label idx uf)).addNode
        (_xdot_id idx) "xdot" (_xdot_label idx uf))
      ((Graph.empty.addNode "u" "input" "u").addNode "y" "output" "y"))
      m p (fun idx => _xdot_id idx)
  rw [h0] at h1
  by_cases hd : m.d = ZERO
  · simp only [hd, ne_eq, not_true_eq_false, if_false, if_pos rfl]
    rw [foldl_edges _ _ (fun es i => planAddE es
      [⟨_xdot_id i, _state_id i, oneOverS, false⟩,
       ⟨_state_id i, "y", m.c.get 0 i, p⟩])]
    · rw [foldl_planAddE_flatMap, h1]
      rfl
    · intro g i
      simp only [planAddE_cons]
      rw [_add_edge_edges, _add_edge_edges]
      rfl
  · simp only [hd, ne_eq, not_false_iff, if_true, if_neg hd]
    rw [_add_edge_edges]
    rw [foldl_edges _ _ (fun es i => planAddE es
      [⟨_xdot_id i, _state_id i, oneOverS, false⟩,
       ⟨_state_id i, "y", m.c.get 0 i, p⟩])]
    · rw [foldl_planAddE_flatMap, h1]
      rfl
    · intro g i
      simp only [planAddE_cons]
      rw [_add_edge_edges, _add_edge_edges]
      rfl

/-! ### Distinctness of the generated node identifiers -/

theorem _state_id_inj {i j : Nat} (h : _state_id i = _state_id j) : i = j := by
  have hd : 'x' :: natDigits (i + 1) = 'x' :: natDigits (j + 1) :=
    congrArg String.data h
  injection hd with _ h2
  have := natStr_inj (String.ext h2 : natStr (i + 1) = natStr (j + 1))
  omega

theorem _xdot_id_inj {i j : Nat} (h : _xdot_id i = _xdot_id j) : i = j := by
  have hd : 'x' :: 'd' :: 'o' :: 't' :: natDigits (i + 1)
      = 'x' :: 'd' :: 'o' :: 't' :: natDigits (j + 1) := congrArg String.data h
  injection hd with _ h2
  injection h2 with _ h3
  injection h3 with _ h4
  injection h4 with _ h5
  have := natStr_inj (String.ext h5 : natStr (i + 1) = natStr (j + 1))
  omega

theorem _sum_id_inj {i j : Nat} (h : _sum_id i = _sum_id j) : i = j := by
  have hd : 's' :: 'u' :: 'm' :: natDigits (i + 1)
      = 's' :: 'u' :: 'm' :: natDigits (j + 1) := congrArg String.data h
  injection hd with _ h2
  injection h2 with _ h3
  injection h3 with _ h4
  have := natStr_inj (String.ext h4 : natStr (i + 1) = natStr (j + 1))
  omega

theorem _integrator_id_inj {i j : Nat} (h : _integrator_id i = _integrator_id j) :
    i = j := by
  have hd : 'i' :: 'n' :: 't' :: natDigits (i + 1)
      = 'i' :: 'n' :: 't' :: natDigits (j + 1) := congrArg String.data h
  injection hd with _ h2
  injection h2 with _ h3
  injection h3 with _ h4
  have := natStr_inj (String.ext h4 : natStr (i + 1) = natStr (j + 1))
  omega

theorem _state_id_ne_xdot_id (i j : Nat) : _state_id i ≠ _xdot_id j := by
  intro h
  have hd : 'x' :: natDigits (i + 1)
      = 'x' :: 'd' :: 'o' :: 't' :: natDigits (j + 1) := congrArg String.data h
  injection hd with _ h2
  have hdig : Char.isDigit 'd' = true := by
    have := natDigits_all_digit (i + 1) 'd' (by rw [h2]; exact List.mem_cons_self ..)
    exact this
  simp at hdig

theorem head_char_ne {c1 c2 : Char} {l1 l2 : List Char} (hne : c1 ≠ c2)
    (h : c1 :: l1 = c2 :: l2) : False := by
  injection h with h1 _
  exact hne h1

theorem _state_id_ne_sum_id (i j : Nat) : _state_id i ≠ _sum_id j := fun h =>
  head_char_ne (by decide) (congrArg String.data h :
    'x' :: natDigits (i + 1) = 's' :: 'u' :: 'm' :: natDigits (j + 1))

theorem _state_id_ne_int_id (i j : Nat) : _state_id i ≠ _integrator_id j := fun h =>
  head_char_ne (by decide) (congrArg String.data h :
    'x' :: natDigits (i + 1) = 'i' :: 'n' :: 't' :: natDigits (j + 1))

theorem _sum_id_ne_int_id (i j : Nat) : _sum_id i ≠ _integrator_id j := fun h =>
  head_char_ne (by decide) (congrArg String.data h :
    's' :: 'u' :: 'm' :: natDigits (i + 1) = 'i' :: 'n' :: 't' :: natDigits (j + 1))

theorem _xdot_id_ne_sum_id (i j : Nat) : _xdot_id i ≠ _sum_id j := fun h =>
  head_char_ne (by decide) (congrArg String.data h :
    'x' :: 'd' :: 'o' :: 't' :: natDigits (i + 1)
      = 's' :: 'u' :: 'm' :: natDigits (j + 1))

theorem _state_id_ne_u (i : Nat) : _state_id i ≠ "u" := fun h =>
  head_char_ne (by decide) (congrArg String.data h :
    'x' :: natDigits (i + 1) = 'u' :: [])

theorem _state_id_ne_y (i : Nat) : _state_id i ≠ "y" := fun h =>
  head_char_ne (by decide) (congrArg String.data h :
    'x' :: natDigits (i + 1) = 'y' :: [])

theorem _state_id_ne_ysum (i : Nat) : _state_id i ≠ "ysum" := fun h =>
  head_char_ne (by decide) (congrArg String.data h :
    'x' :: natDigits (i + 1) = 'y' :: 's' :: 'u' :: 'm' :: [])

theorem _xdot_id_ne_u (i : Nat) : _xdot_id i ≠ "u" := fun h =>
  head_char_ne (by decide) (congrArg String.data h :
    'x' :: 'd' :: 'o' :: 't' :: natDigits (i + 1) = 'u' :: [])

theorem _xdot_id_ne_y (i : Nat) : _xdot_id i ≠ "y" := fun h =>
  head_char_ne (by decide) (congrArg String.data h :
    'x' :: 'd' :: 'o' :: 't' :: natDigits (i + 1) = 'y' :: [])

theorem _xdot_id_ne_ysum (i : Nat) : _xdot_id i ≠ "ysum" := fun h =>
  head_char_ne (by decide) (congrArg String.data h :
    'x' :: 'd' :: 'o' :: 't' :: natDigits (i + 1) = 'y' :: 's' :: 'u' :: 'm' :: [])

theorem _sum_id_ne_u (i : Nat) : _sum_id i ≠ "u" := fun h =>
  head_char_ne (by decide) (congrArg String.data h :
    's' :: 'u' :: 'm' :: natDigits (i + 1) = 'u' :: [])

theorem _sum_id_ne_y (i : Nat) : _sum_id i ≠ "y" := fun h =>
  head_char_ne (by decide) (congrArg String.data h :
    's' :: 'u' :: 'm' :: natDigits (i + 1) = 'y' :: [])

theorem _sum_id_ne_ysum (i : Nat) : _sum_id i ≠ "ysum" := fun h =>
  head_char_ne (by decide) (congrArg String.data h :
    's' :: 'u' :: 'm' :: natDigits (i + 1) = 'y' :: 's' :: 'u' :: 'm' :: [])

theorem _int_id_ne_u (i : Nat) : _integrator_id i ≠ "u" := fun h =>
  head_char_ne (by decide) (congrArg String.data h :
    'i' :: 'n' :: 't' :: natDigits (i + 1) = 'u' :: [])

theorem _int_id_ne_y (i : Nat) : _integrator_id i ≠ "y" := fun h =>
  head_char_ne (by decide) (congrArg String.data h :
    'i' :: 'n' :: 't' :: natDigits (i + 1) = 'y' :: [])

theorem _int_id_ne_ysum (i : Nat) : _integrator_id i ≠ "ysum" := fun h =>
  head_char_ne (by decide) (congrArg String.data h :
    'i' :: 'n' :: 't' :: natDigits (i + 1) = 'y' :: 's' :: 'u' :: 'm' :: [])

/-- Two plan entries address different edges. -/
def PDiff (a b : PlanE) : Prop := ¬(a.src = b.src ∧ a.dst = b.dst)

theorem PDiff.symmetric : Symmetric PDiff := fun _ _ h hc =>
  h ⟨hc.1.symm, hc.2.symm⟩

theorem pdiff_of_src {a b : PlanE} (h : a.src ≠ b.src) : PDiff a b :=
  fun hc => h hc.1

theorem pdiff_of_dst {a b : PlanE} (h : a.dst ≠ b.dst) : PDiff a b :=
  fun hc => h hc.2

theorem pairwise_flatMap {α β : Type} {R : β → β → Prop} (l : List α)
    (f : α → List β) (hin : ∀ a ∈ l, (f a).Pairwise R)
    (hcross : l.Pairwise (fun a b => ∀ x ∈ f a, ∀ y ∈ f b, R x y)) :
    (l.flatMap f).Pairwise R := by
  induction l with
  | nil => exact List.Pairwise.nil
  | cons a l ih =>
    rw [List.flatMap_cons, List.pairwise_append]
    refine ⟨hin a (List.mem_cons_self ..),
      ih (fun b hb => hin b (List.mem_cons_of_mem _ hb))
        (List.pairwise_cons.mp hcross).2, ?_⟩
    intro x hx y hy
    obtain ⟨b, hb, hyb⟩ := List.mem_flatMap.mp hy
    exact (List.pairwise_cons.mp hcross).1 b hb x hx y hyb

/-- Pairwise distinctness over `List.range n` from an indexed condition. -/
theorem pairwise_range {α : Type} {R : α → α → Prop} {n : Nat} (f : Nat → α)
    (h : ∀ i j, i < j → j < n → R (f i) (f j)) :
    ((List.range n).map f).Pairwise R := by
  rw [List.pairwise_map]
  exact List.Pairwise.imp_of_mem
    (fun {a b} _ hb hab => h a b hab (List.mem_range.mp hb))
    (List.pairwise_lt_range n)

/-- Pairwise distinctness over `(List.range n).flatMap f` from indexed
conditions. -/
theorem pairwise_flatMap_range {β : Type} {R : β → β → Prop} {n : Nat}
    (f : Nat → List β) (hin : ∀ i < n, (f i).Pairwise R)
    (hcross : ∀ i j, i < j → j < n → ∀ x ∈ f i, ∀ y ∈ f j, R x y) :
    ((List.range n).flatMap f).Pairwise R := by
  apply pairwise_flatMap
  · intro i hi
    exact hin i (List.mem_range.mp hi)
  · exact List.Pairwise.imp_of_mem
      (fun {a b} _ hb hab => hcross a b hab (List.mem_range.mp hb))
      (List.pairwise_lt_range n)

theorem mem_ite_nil {α : Type} {x : α} {c : Prop} [Decidable c] {l : List α}
    (h : x ∈ (if c then ([] : List α) else l)) : ¬c ∧ x ∈ l := by
  split_ifs at h with hc
  · simp at h
  · exact ⟨hc, h⟩

/-- Membership in `statePlan`. -/
theorem mem_statePlan {m : StateSpaceModel} {p : Bool} {fn : Nat → String}
    {e : PlanE} :
    e ∈ statePlan m p fn ↔
      (∃ row < m.order, ∃ col < m.order,
        e = ⟨_state_id col, fn row, m.A.get row col, p⟩) ∨
      (∃ row < m.order, e = ⟨"u", fn row, m.b.get row 0, p⟩) := by
  unfold statePlan
  simp only [List.mem_flatMap, List.mem_range, List.mem_append, List.mem_map,
    List.mem_singleton]
  constructor
  · rintro ⟨row, hrow, ⟨col, hcol, rfl⟩ | rfl⟩
    · exact Or.inl ⟨row, hrow, col, hcol, rfl⟩
    · exact Or.inr ⟨row, hrow, rfl⟩
  · rintro (⟨row, hrow, col, hcol, rfl⟩ | ⟨row, hrow, rfl⟩)
    · exact ⟨row, hrow, Or.inl ⟨col, hcol, rfl⟩⟩
    · exact ⟨row, hrow, Or.inr rfl⟩

theorem statePlan_pairwise (m : StateSpaceModel) (p : Bool) (fn : Nat → String)
    (hfn : ∀ i j : Nat, fn i = fn j → i = j) :
    (statePlan m p fn).Pairwise PDiff := by
  unfold statePlan
  apply pairwise_flatMap_range
  · intro row _
    rw [List.pairwise_append]
    refine ⟨pairwise_range _ (fun c c2 hlt _ => pdiff_of_src ?_), by simp, ?_⟩
    · intro h
      exact absurd (_state_id_inj h) (by omega)
    · intro a ha b hb
      simp only [List.mem_map, List.mem_range] at ha
      simp only [List.mem_singleton] at hb
      obtain ⟨c, _, rfl⟩ := ha
      subst hb
      exact pdiff_of_src (_state_id_ne_u c)
  · intro r r2 hlt hr2 a ha b hb
    have hr : fn r ≠ fn r2 := fun h => absurd (hfn _ _ h) (by omega)
    simp only [List.mem_append, List.mem_map, List.mem_range,
      List.mem_singleton] at ha hb
    rcases ha with ⟨c, _, rfl⟩ | rfl <;> rcases hb with ⟨c2, _, rfl⟩ | rfl <;>
      exact pdiff_of_dst hr

theorem sfgPlan_pairwise (m : StateSpaceModel) (p : Bool) :
    (sfgPlan m p).Pairwise PDiff := by
  unfold sfgPlan
  rw [List.pairwise_append, List.pairwise_append]
  refine ⟨⟨statePlan_pairwise m p _xdot_id (fun i j => _xdot_id_inj), ?_, ?_⟩,
    ?_, ?_⟩
  · -- the 1/s and c-row block is pairwise distinct
    apply pairwise_flatMap_range
    · intro i _
      refine List.pairwise_cons.mpr ⟨?_, by simp⟩
      intro b hb
      rw [List.mem_singleton] at hb
      subst hb
      exact pdiff_of_src (Ne.symm (_state_id_ne_xdot_id i i))
    · intro i j hlt _ a ha b hb
      simp only [List.mem_cons, List.mem_singleton, List.not_mem_nil,
        or_false] at ha hb
      rcases ha with rfl | rfl <;> rcases hb with rfl | rfl
      · exact pdiff_of_src fun h => absurd (_xdot_id_inj h) (by omega)
      · exact pdiff_of_src (fun h => _state_id_ne_xdot_id j i h.symm)
      · exact pdiff_of_src (_state_id_ne_xdot_id i j)
      · exact pdiff_of_src fun h => absurd (_state_id_inj h) (by omega)
  · -- cross: A/b block vs the 1/s and c-row block
    intro a ha b hb
    simp only [List.mem_flatMap, List.mem_range, List.mem_cons,
      List.mem_singleton, List.not_mem_nil, or_false] at hb
    rcases mem_statePlan.mp ha with ⟨row, _, col, _, rfl⟩ | ⟨row, _, rfl⟩ <;>
    · obtain ⟨i, _, rfl | rfl⟩ := hb
      · exact pdiff_of_dst (fun h => _state_id_ne_xdot_id i row h.symm)
      · exact pdiff_of_dst (_xdot_id_ne_y row)
  · by_cases hd : m.d = ZERO <;> simp [hd]
  · -- cross: everything else vs the optional d edge
    intro a ha b hb
    obtain ⟨hd, hb⟩ := mem_ite_nil hb
    rw [List.mem_singleton] at hb
    subst hb
    rcases List.mem_append.mp ha with ha | ha
    · rcases mem_statePlan.mp ha with ⟨row, _, col, _, rfl⟩ | ⟨row, _, rfl⟩
      · exact pdiff_of_dst (_xdot_id_ne_y row)
      · exact pdiff_of_dst (_xdot_id_ne_y row)
    · simp only [List.mem_flatMap, List.mem_range, List.mem_cons,
        List.mem_singleton, List.not_mem_nil, or_false] at ha
      obtain ⟨i, _, rfl | rfl⟩ := ha
      · exact pdiff_of_src (_xdot_id_ne_u i)
      · exact pdiff_of_src (_state_id_ne_u i)

theorem intPlan_pairwise (m : StateSpaceModel) (p : Bool) :
    (intPlan m p).Pairwise PDiff := by
  unfold intPlan
  refine List.pairwise_cons.mpr ⟨?_, ?_⟩
  · -- the ysum→y edge vs everything else: every other source differs
    intro b hb
    rcases List.mem_append.mp hb with hb | hb
    case _ =>
      rcases List.mem_append.mp hb with hb | hb
      case _ =>
        rcases List.mem_append.mp hb with hb | hb
        · simp only [List.mem_flatMap, List.mem_range, List.mem_cons,
            List.mem_singleton, List.not_mem_nil, or_false] at hb
          obtain ⟨i, _, rfl | rfl⟩ := hb
          · exact pdiff_of_src (fun h => absurd h.symm (_sum_id_ne_ysum i))
          · exact pdiff_of_src (fun h => absurd h.symm (_int_id_ne_ysum i))
        · rcases mem_statePlan.mp hb with ⟨row, _, col, _, rfl⟩ | ⟨row, _, rfl⟩
          · exact pdiff_of_src (fun h => absurd h.symm (_state_id_ne_ysum col))
          · exact pdiff_of_src (by decide : ("ysum" : String) ≠ "u")
      case _ =>
        simp only [List.mem_map, List.mem_range] at hb
        obtain ⟨i, _, rfl⟩ := hb
        exact pdiff_of_src (fun h => absurd h.symm (_state_id_ne_ysum i))
    case _ =>
      obtain ⟨hd, hb⟩ := mem_ite_nil hb
      rw [List.mem_singleton] at hb
      subst hb
      exact pdiff_of_src (by decide : ("ysum" : String) ≠ "u")
  rw [List.pairwise_append, List.pairwise_append, List.pairwise_append]
  refine ⟨⟨⟨?_, statePlan_pairwise m p _sum_id (fun i j => _sum_id_inj), ?_⟩,
    ?_, ?_⟩, ?_, ?_⟩
  · -- sum→int and int→state block
    apply pairwise_flatMap_range
    · intro i _
      refine List.pairwise_cons.mpr ⟨?_, by simp⟩
      intro b hb
      rw [List.mem_singleton] at hb
      subst hb
      exact pdiff_of_src (_sum_id_ne_int_id i i)
    · intro i j hlt _ a ha b hb
      simp only [List.mem_cons, List.mem_singleton, List.not_mem_nil,
        or_false] at ha hb
      rcases ha with rfl | rfl <;> rcases hb with rfl | rfl
      · exact pdiff_of_src fun h => absurd (_sum_id_inj h) (by omega)
      · exact pdiff_of_src fun h => _sum_id_ne_int_id i j h
      · exact pdiff_of_src fun h => _sum_id_ne_int_id j i h.symm
      · exact pdiff_of_src fun h => absurd (_integrator_id_inj h) (by omega)
  · -- cross: sum→int, int→state vs A/b rows
    intro a ha b hb
    simp only [List.mem_flatMap, List.mem_range, List.mem_cons,
      List.mem_singleton, List.not_mem_nil, or_false] at ha
    rcases mem_statePlan.mp hb with ⟨row, _, col, _, rfl⟩ | ⟨row, _, rfl⟩
    · obtain ⟨i, _, rfl | rfl⟩ := ha
      · exact pdiff_of_src (fun h => _state_id_ne_sum_id col i h.symm)
      · exact pdiff_of_src (fun h => _state_id_ne_int_id col i h.symm)
    · obtain ⟨i, _, rfl | rfl⟩ := ha
      · exact pdiff_of_src (_sum_id_ne_u i)
      · exact pdiff_of_src (_int_id_ne_u i)
  · -- c-row edges to ysum are pairwise distinct
    exact pairwise_range _ (fun i j hlt _ =>
      pdiff_of_src fun h => absurd (_state_id_inj h) (by omega))
  · -- cross: first two blocks vs c-row edges
    intro a ha b hb
    simp only [List.mem_map, List.mem_range] at hb
    obtain ⟨i, _, rfl⟩ := hb
    rcases List.mem_append.mp ha with ha | ha
    · simp only [List.mem_flatMap, List.mem_range, List.mem_cons,
        List.mem_singleton, List.not_mem_nil, or_false] at ha
      obtain ⟨j, _, rfl | rfl⟩ := ha
      · exact pdiff_of_src (fun h => _state_id_ne_sum_id i j h.symm)
      · exact pdiff_of_src (fun h => _state_id_ne_int_id i j h.symm)
    · rcases mem_statePlan.mp ha with ⟨row, _, col, _, rfl⟩ | ⟨row, _, rfl⟩
      · exact pdiff_of_dst (fun h => _sum_id_ne_ysum row h)
      · exact pdiff_of_src (fun h => absurd h.symm (_state_id_ne_u i))
  · by_cases hd : m.d = ZERO <;> simp [hd]
  · -- cross: first three blocks vs the optional d edge
    intro a ha b hb
    obtain ⟨hd, hb⟩ := mem_ite_nil hb
    rw [List.mem_singleton] at hb
    subst hb
    rcases List.mem_append.mp ha with ha | ha
    case _ =>
      rcases List.mem_append.mp ha with ha | ha
      · simp only [List.mem_flatMap, List.mem_range, List.mem_cons,
          List.mem_singleton, List.not_mem_nil, or_false] at ha
        obtain ⟨j, _, rfl | rfl⟩ := ha
        · exact pdiff_of_src (_sum_id_ne_u j)
        · exact pdiff_of_src (_int_id_ne_u j)
      · rcases mem_statePlan.mp ha with ⟨row, _, col, _, rfl⟩ | ⟨row, _, rfl⟩
        · exact pdiff_of_src (_state_id_ne_u col)
        · exact pdiff_of_dst (fun h => _sum_id_ne_ysum row h)
    case _ =>
      simp only [List.mem_map, List.mem_range] at ha
      obtain ⟨i, _, rfl⟩ := ha
      exact pdiff_of_src (_state_id_ne_u i)

theorem mem_ite_nil_iff {α : Type} {x : α} {c : Prop} [Decidable c]
    {l : List α} : x ∈ (if c then ([] : List α) else l) ↔ ¬c ∧ x ∈ l := by
  split_ifs with hc <;> simp [hc]

/-- Membership in the SFG edge plan. -/
theorem mem_sfgPlan {m : StateSpaceModel} {p : Bool} {e : PlanE} :
    e ∈ sfgPlan m p ↔
      (∃ row < m.order, ∃ col < m.order,
        e = ⟨_state_id col, _xdot_id row, m.A.get row col, p⟩) ∨
      (∃ row < m.order, e = ⟨"u", _xdot_id row, m.b.get row 0, p⟩) ∨
      (∃ i < m.order, e = ⟨_xdot_id i, _state_id i, oneOverS, false⟩) ∨
      (∃ i < m.order, e = ⟨_state_id i, "y", m.c.get 0 i, p⟩) ∨
      (m.d ≠ ZERO ∧ e = ⟨"u", "y", m.d, p⟩) := by
  unfold sfgPlan
  simp only [List.mem_append, mem_statePlan, mem_ite_nil_iff, List.mem_flatMap,
    List.mem_range, List.mem_cons, List.mem_singleton, List.not_mem_nil,
    or_false]
  constructor
  · rintro (((h | h) | ⟨i, hi, rfl | rfl⟩) | ⟨hd, rfl⟩)
    · exact Or.inl h
    · exact Or.inr (Or.inl h)
    · exact Or.inr (Or.inr (Or.inl ⟨i, hi, rfl⟩))
    · exact Or.inr (Or.inr (Or.inr (Or.inl ⟨i, hi, rfl⟩)))
    · exact Or.inr (Or.inr (Or.inr (Or.inr ⟨hd, rfl⟩)))
  · rintro (h | h | ⟨i, hi, rfl⟩ | ⟨i, hi, rfl⟩ | ⟨hd, rfl⟩)
    · exact Or.inl (Or.inl (Or.inl h))
    · exact Or.inl (Or.inl (Or.inr h))
    · exact Or.inl (Or.inr ⟨i, hi, Or.inl rfl⟩)
    · exact Or.inl (Or.inr ⟨i, hi, Or.inr rfl⟩)
    · exact Or.inr ⟨hd, rfl⟩

/-- Membership in the Integrator edge plan. -/
theorem mem_intPlan {m : StateSpaceModel} {p : Bool} {e : PlanE} :
    e ∈ intPlan m p ↔
      (e = ⟨"ysum", "y", ONE, false⟩) ∨
      (∃ i < m.order, e = ⟨_sum_id i, _integrator_id i, ONE, false⟩) ∨
      (∃ i < m.order, e = ⟨_integrator_id i, _state_id i, ONE, false⟩) ∨
      (∃ row < m.order, ∃ col < m.order,
        e = ⟨_state_id col, _sum_id row, m.A.get row col, p⟩) ∨
      (∃ row < m.order, e = ⟨"u", _sum_id row, m.b.get row 0, p⟩) ∨
      (∃ i < m.order, e = ⟨_state_id i, "ysum", m.c.get 0 i, p⟩) ∨
      (m.d ≠ ZERO ∧ e = ⟨"u", "ysum", m.d, p⟩) := by
  unfold intPlan
  simp only [List.mem_cons, List.mem_append, mem_statePlan, mem_ite_nil_iff,
    List.mem_flatMap, List.mem_range, List.mem_singleton, List.not_mem_nil,
    or_false, List.mem_map]
  constructor
  · rintro (rfl | (((⟨i, hi, rfl | rfl⟩ | (h | h)) | ⟨i, hi, rfl⟩) | ⟨hd, rfl⟩))
    · exact Or.inl rfl
    · exact Or.inr (Or.inl ⟨i, hi, rfl⟩)
    · exact Or.inr (Or.inr (Or.inl ⟨i, hi, rfl⟩))
    · exact Or.inr (Or.inr (Or.inr (Or.inl h)))
    · exact Or.inr (Or.inr (Or.inr (Or.inr (Or.inl h))))
    · exact Or.inr (Or.inr (Or.inr (Or.inr (Or.inr (Or.inl ⟨i, hi, rfl⟩)))))
    · exact Or.inr (Or.inr (Or.inr (Or.inr (Or.inr (Or.inr ⟨hd, rfl⟩)))))
  · rintro (rfl | ⟨i, hi, rfl⟩ | ⟨i, hi, rfl⟩ | h | h | ⟨i, hi, rfl⟩ | ⟨hd, rfl⟩)
    · exact Or.inl rfl
    · exact Or.inr (Or.inl (Or.inl (Or.inl ⟨i, hi, Or.inl rfl⟩)))
    · exact Or.inr (Or.inl (Or.inl (Or.inl ⟨i, hi, Or.inr rfl⟩)))
    · exact Or.inr (Or.inl (Or.inl (Or.inr (Or.inl h))))
    · exact Or.inr (Or.inl (Or.inl (Or.inr (Or.inr h))))
    · exact Or.inr (Or.inl (Or.inr ⟨i, hi, rfl⟩))
    · exact Or.inr (Or.inr ⟨hd, rfl⟩)

/-- For a pairwise-distinct plan applied to the empty edge list, lookup
returns `some` exactly at the surviving plan entries. -/
theorem planAddE_some_iff (l : List PlanE) (s t : String) (a : Attrs)
    (hdist : l.Pairwise PDiff) :
    findE (planAddE [] l) s t = some a ↔
      ∃ e ∈ l, e.src = s ∧ e.dst = t ∧
        (e.prune && _is_zero e.gain) = false ∧
        a = [("gain", .expr e.gain)] := by
  rw [planAddE_findE l [] s t hdist (fun e _ => rfl)]
  constructor
  · intro h
    cases hf : l.find? (fun e => e.src == s && e.dst == t) with
    | none =>
      rw [hf] at h
      exact absurd h (by simp [findE])
    | some e =>
      rw [hf] at h
      dsimp only at h
      by_cases hz : (e.prune && _is_zero e.gain) = true
      · rw [if_pos hz] at h
        exact absurd h (by simp)
      · rw [if_neg hz] at h
        have hmem := List.mem_of_find?_eq_some hf
        have hpred := List.find?_some hf
        simp only [Bool.and_eq_true, beq_iff_eq] at hpred
        exact ⟨e, hmem, hpred.1, hpred.2,
          Bool.not_eq_true _ ▸ hz, (Option.some.inj h).symm⟩
  · rintro ⟨e, hmem, rfl, rfl, hsurv, rfl⟩
    have hex : (l.find? (fun x => x.src == e.src && x.dst == e.dst)).isSome := by
      rw [List.find?_isSome]
      exact ⟨e, hmem, by simp⟩
    obtain ⟨e2, hf⟩ := Option.isSome_iff_exists.mp hex
    have he2mem := List.mem_of_find?_eq_some hf
    have hpred := List.find?_some hf
    simp only [Bool.and_eq_true, beq_iff_eq] at hpred
    have he2 : e2 = e := by
      by_contra hne
      exact (hdist.forall PDiff.symmetric he2mem hmem hne) ⟨hpred.1, hpred.2⟩
    subst he2
    rw [hf]
    dsimp only
    rw [if_neg (by simp [hsurv])]

/-- For a pairwise-distinct plan applied to the empty edge list, lookup
returns `none` exactly when every plan entry for the pair is pruned. -/
theorem planAddE_none_iff (l : List PlanE) (s t : String)
    (hdist : l.Pairwise PDiff) :
    findE (planAddE [] l) s t = none ↔
      ∀ e ∈ l, e.src = s → e.dst = t →
        (e.prune && _is_zero e.gain) = true := by
  rw [planAddE_findE l [] s t hdist (fun e _ => rfl)]
  cases hf : l.find? (fun e => e.src == s && e.dst == t) with
  | none =>
    simp only [findE, List.find?_nil, Option.map_none]
    constructor
    · intro _ e hmem hs ht
      have := List.find?_eq_none.mp hf e hmem
      simp [hs, ht] at this
    · intro _
      rfl
  | some e =>
    have hmem := List.mem_of_find?_eq_some hf
    have hpred := List.find?_some hf
    simp only [Bool.and_eq_true, beq_iff_eq] at hpred
    dsimp only
    by_cases hz : (e.prune && _is_zero e.gain) = true
    · rw [if_pos hz]
      simp only [true_iff]
      intro e2 hmem2 hs ht
      have he2 : e2 = e := by
        by_contra hne
        exact (hdist.forall PDiff.symmetric hmem2 hmem hne)
          ⟨hs.trans hpred.1.symm, ht.trans hpred.2.symm⟩
      subst he2
      exact hz
    · rw [if_neg hz]
      constructor
      · intro h
        simp at h
      · intro hall
        exact absurd (hall e hmem hpred.1 hpred.2) hz

/-! ### The builders' node lists -/

abbrev NodeList := List (String × Attrs)

/-- Whether a node id is present in a node list. -/
def hasN (ns : NodeList) (id : String) : Bool := ns.any (fun p => p.1 == id)

/-- The node-list component of `Graph.ensureNode`. -/
def nodesEnsure (ns : NodeList) (id : String) : NodeList :=
  if hasN ns id then ns else ns ++ [(id, [])]

/-- The node-list component of `Graph.addNodeAttrs`. -/
def nodesUpsert (ns : NodeList) (id : String) (attrs : Attrs) : NodeList :=
  if hasN ns id then
    ns.map (fun p =>
      if p.1 == id then (p.1, attrs.foldl (fun a kv => setAttr a kv.1 kv.2) p.2)
      else p)
  else ns ++ [(id, attrs)]

theorem hasNode_eq_hasN (g : Graph) (id : String) :
    g.hasNode id = hasN g.nodes id := rfl

theorem addNodeAttrs_nodes (g : Graph) (id : String) (a : Attrs) :
    (g.addNodeAttrs id a).nodes = nodesUpsert g.nodes id a := by
  unfold Graph.addNodeAttrs nodesUpsert
  rw [← hasNode_eq_hasN]
  by_cases h : g.hasNode id = true <;> simp [h]

theorem addNode_nodes (g : Graph) (id ty lb : String) :
    (g.addNode id ty lb).nodes =
      nodesUpsert g.nodes id [("type", .str ty), ("label", .str lb)] :=
  addNodeAttrs_nodes ..

theorem ensureNode_nodes (g : Graph) (id : String) :
    (g.ensureNode id).nodes = nodesEnsure g.nodes id := by
  unfold Graph.ensureNode nodesEnsure
  rw [← hasNode_eq_hasN]
  by_cases h : g.hasNode id = true <;> simp [h]

theorem addEdgeAttrs_nodes (g : Graph) (s t : String) (a : Attrs) :
    (g.addEdgeAttrs s t a).nodes = nodesEnsure (nodesEnsure g.nodes s) t := by
  unfold Graph.addEdgeAttrs
  by_cases h : ((g.ensureNode s).ensureNode t).hasEdge s t = true <;>
    simp [h, ensureNode_nodes]

theorem _add_edge_nodes (g : Graph) (s t : String) (gn : Expr) (p : Bool) :
    (_add_edge g s t gn p).nodes =
      if p && _is_zero gn then g.nodes
      else nodesEnsure (nodesEnsure g.nodes s) t := by
  unfold _add_edge
  by_cases h : (p && _is_zero gn) = true <;> simp [h, addEdgeAttrs_nodes]

theorem nodesEnsure_of_hasN {ns : NodeList} {id : String}
    (h : hasN ns id = true) : nodesEnsure ns id = ns := by
  unfold nodesEnsure
  rw [if_pos h]

theorem nodesUpsert_of_fresh {ns : NodeList} {id : String} (a : Attrs)
    (h : hasN ns id = false) : nodesUpsert ns id a = ns ++ [(id, a)] := by
  unfold nodesUpsert
  rw [h]
  simp

theorem _add_edge_nodes_present {g : Graph} {s t : String} (gn : Expr)
    (p : Bool) (h1 : hasN g.nodes s = true) (h2 : hasN g.nodes t = true) :
    (_add_edge g s t gn p).nodes = g.nodes := by
  rw [_add_edge_nodes]
  by_cases h : (p && _is_zero gn) = true
  · rw [if_pos h]
  · rw [if_neg h, nodesEnsure_of_hasN h1, nodesEnsure_of_hasN h2]

/-- A fold whose body preserves a fixed node list preserves it overall. -/
theorem foldl_nodes_const {β : Type} (l : List β) (f : Graph → β → Graph)
    (N : NodeList) (h : ∀ g x, g.nodes = N → x ∈ l → (f g x).nodes = N) :
    ∀ g : Graph, g.nodes = N → (l.foldl f g).nodes = N := by
  induction l with
  | nil => intro g hg; exact hg
  | cons x l ih =>
    intro g hg
    simp only [List.foldl_cons]
    exact ih (fun g2 y hg2 hy => h g2 y hg2 (List.mem_cons_of_mem _ hy))
      (f g x) (h g x hg (List.mem_cons_self ..))

/-- The `u`, `y`, `ysum` node entries created first by
`build_integrator_graph`. -/
def baseNodes (uf : Bool) : NodeList :=
  [("u", [("type", .str "input"), ("label", .str "u")]),
   ("y", [("type", .str "output"), ("label", .str "y")]),
   ("ysum", [("type", .str "sum"), ("label", .str (_output_sum_label uf))])]

/-- The `sum`, `int`, `state` node entries created for state index `i`. -/
def intTriple (uf : Bool) (i : Nat) : NodeList :=
  [(_sum_id i, [("type", .str "sum"), ("label", .str (_sum_label i uf))]),
   (_integrator_id i, [("type", .str "int"), ("label", .str "1/s")]),
   (_state_id i, [("type", .str "state"), ("label", .str (_state_label i uf))])]

/-- The node list of the built Integrator graph: `u`, `y`, `ysum`, then
`sum`, `int`, `state` triples per state. -/
def intNodeList (n : Nat) (uf : Bool) : NodeList :=
  baseNodes uf ++ (List.range n).flatMap (intTriple uf)

theorem hasN_append (ns ms : NodeList) (id : String) :
    hasN (ns ++ ms) id = (hasN ns id || hasN ms id) := List.any_append ..

theorem hasN_intNodeList_u (n : Nat) (uf : Bool) :
    hasN (intNodeList n uf) "u" = true := by
  unfold intNodeList baseNodes
  rw [hasN_append]
  simp [hasN]

theorem hasN_intNodeList_y (n : Nat) (uf : Bool) :
    hasN (intNodeList n uf) "y" = true := by
  unfold intNodeList baseNodes
  rw [hasN_append]
  simp [hasN]

theorem hasN_intNodeList_ysum (n : Nat) (uf : Bool) :
    hasN (intNodeList n uf) "ysum" = true := by
  unfold intNodeList baseNodes
  rw [hasN_append]
  simp [hasN]

theorem hasN_of_mem {ns : NodeList} {id : String} {a : Attrs}
    (h : (id, a) ∈ ns) : hasN ns id = true :=
  List.any_eq_true.mpr ⟨(id, a), h, by simp⟩

theorem hasN_intNodeList_state (n : Nat) (uf : Bool) {i : Nat} (h : i < n) :
    hasN (intNodeList n uf) (_state_id i) = true :=
  hasN_of_mem
    (a := [("type", AttrVal.str "state"),
      ("label", AttrVal.str (_state_label i uf))]) (by
    unfold intNodeList
    refine List.mem_append_right _
      (List.mem_flatMap.mpr ⟨i, List.mem_range.mpr h, ?_⟩)
    simp [intTriple])

theorem hasN_intNodeList_sum (n : Nat) (uf : Bool) {i : Nat} (h : i < n) :
    hasN (intNodeList n uf) (_sum_id i) = true :=
  hasN_of_mem
    (a := [("type", AttrVal.str "sum"),
      ("label", AttrVal.str (_sum_label i uf))]) (by
    unfold intNodeList
    refine List.mem_append_right _
      (List.mem_flatMap.mpr ⟨i, List.mem_range.mpr h, ?_⟩)
    simp [intTriple])

/-- The index-`n` identifiers are fresh for the base nodes. -/
theorem hasN_base_fresh (uf : Bool) (n : Nat) :
    hasN (baseNodes uf) (_sum_id n) = false ∧
    hasN (baseNodes uf) (_integrator_id n) = false ∧
    hasN (baseNodes uf) (_state_id n) = false := by
  unfold baseNodes hasN
  simp only [List.any_cons, List.any_nil, Bool.or_false,
    Bool.or_eq_false_iff, beq_eq_false_iff_ne, ne_eq]
  exact ⟨⟨fun h => _sum_id_ne_u n h.symm,
      fun h => _sum_id_ne_y n h.symm, fun h => _sum_id_ne_ysum n h.symm⟩,
    ⟨fun h => _int_id_ne_u n h.symm,
      fun h => _int_id_ne_y n h.symm, fun h => _int_id_ne_ysum n h.symm⟩,
    ⟨fun h => _state_id_ne_u n h.symm,
      fun h => _state_id_ne_y n h.symm, fun h => _state_id_ne_ysum n h.symm⟩⟩

/-- The index-`n` identifiers are fresh for the triples of indices below
`n`. -/
theorem hasN_triples_fresh (uf : Bool) (n : Nat) :
    hasN ((List.range n).flatMap (intTriple uf)) (_sum_id n) = false ∧
    hasN ((List.range n).flatMap (intTriple uf)) (_integrator_id n) = false ∧
    hasN ((List.range n).flatMap (intTriple uf)) (_state_id n) = false := by
  refine ⟨?_, ?_, ?_⟩ <;>
  · rw [← Bool.not_eq_true]
    intro hc
    obtain ⟨x, hx, hpx⟩ := List.any_eq_true.mp hc
    obtain ⟨j, hj, hxj⟩ := List.mem_flatMap.mp hx
    rw [List.mem_range] at hj
    simp only [intTriple, List.mem_cons, List.mem_singleton, List.not_mem_nil,
      or_false] at hxj
    rw [beq_iff_eq] at hpx
    rcases hxj with rfl | rfl | rfl <;> simp only [] at hpx
    all_goals first
      | exact absurd (_sum_id_inj hpx) (by omega)
      | exact absurd (_integrator_id_inj hpx) (by omega)
      | exact absurd (_state_id_inj hpx) (by omega)
      | exact _sum_id_ne_int_id _ _ hpx
      | exact _sum_id_ne_int_id _ _ hpx.symm
      | exact _state_id_ne_sum_id _ _ hpx
      | exact _state_id_ne_sum_id _ _ hpx.symm
      | exact _state_id_ne_int_id _ _ hpx
      | exact _state_id_ne_int_id _ _ hpx.symm

/-- Node effect of the per-state loop of `build_integrator_graph`. -/
theorem int_loop_nodes (m : StateSpaceModel) (uf p : Bool) (n : Nat)
    (g : Graph) (hg : g.nodes = baseNodes uf) :
    ((List.range n).foldl (fun g idx =>
      _add_edge (_add_edge (((g.addNode (_sum_id idx) "sum" (_sum_label idx uf)).addNode
        (_integrator_id idx) "int" "1/s").addNode
        (_state_id idx) "state" (_state_label idx uf))
        (_sum_id idx) (_integrator_id idx) ONE false)
        (_integrator_id idx) (_state_id idx) ONE false) g).nodes
      = baseNodes uf ++ (List.range n).flatMap (intTriple uf) := by
  induction n with
  | zero => simpa using hg
  | succ n ih =>
    rw [List.range_succ, List.foldl_append, List.foldl_cons, List.foldl_nil,
      List.flatMap_append, List.flatMap_cons, List.flatMap_nil,
      List.append_nil, ← List.append_assoc]
    set gn := (List.range n).foldl _ g with hgn
    obtain ⟨hbs, hbi, hbx⟩ := hasN_base_fresh uf n
    obtain ⟨hts, hti, htx⟩ := hasN_triples_fresh uf n
    have hnodes : gn.nodes = baseNodes uf ++ (List.range n).flatMap (intTriple uf) := ih
    have hsingle : ∀ (id id2 : String) (a : Attrs), id ≠ id2 →
        hasN [(id, a)] id2 = false := by
      intro id id2 a hne
      unfold hasN
      simp [hne]
    have h1 : ((gn.addNode (_sum_id n) "sum" (_sum_label n uf))).nodes
        = gn.nodes ++ [(_sum_id n, [("type", .str "sum"),
            ("label", .str (_sum_label n uf))])] := by
      rw [addNode_nodes, nodesUpsert_of_fresh]
      rw [hnodes, hasN_append, hbs, hts]
      rfl
    have h2 : (((gn.addNode (_sum_id n) "sum" (_sum_label n uf)).addNode
        (_integrator_id n) "int" "1/s")).nodes
        = gn.nodes ++ [(_sum_id n, [("type", .str "sum"),
            ("label", .str (_sum_label n uf))]),
          (_integrator_id n, [("type", .str "int"), ("label", .str "1/s")])] := by
      rw [addNode_nodes, nodesUpsert_of_fresh, h1, List.append_assoc]
      · rfl
      · rw [h1, hasN_append, hnodes, hasN_append, hbi, hti,
          hsingle _ _ _ (_sum_id_ne_int_id n n)]
        rfl
    have h3 : ((((gn.addNode (_sum_id n) "sum" (_sum_label n uf)).addNode
        (_integrator_id n) "int" "1/s").addNode
        (_state_id n) "state" (_state_label n uf))).nodes
        = gn.nodes ++ intTriple uf n := by
      rw [addNode_nodes, nodesUpsert_of_fresh, h2, List.append_assoc]
      · rfl
      · rw [h2, hasN_append, hnodes, hasN_append, hbx, htx]
        have hx1 : hasN [(_sum_id n, [("type", AttrVal.str "sum"),
            ("label", AttrVal.str (_sum_label n uf))]),
          (_integrator_id n, [("type", AttrVal.str "int"),
            ("label", AttrVal.str "1/s")])] (_state_id n) = false := by
          unfold hasN
          simp only [List.any_cons, List.any_nil, Bool.or_false,
            Bool.or_eq_false_iff, beq_eq_false_iff_ne, ne_eq]
          exact ⟨fun h => _state_id_ne_sum_id n n h.symm,
            fun h => _state_id_ne_int_id n n h.symm⟩
        rw [hx1]
        rfl
    have hpresS : hasN (gn.nodes ++ intTriple uf n) (_sum_id n) = true :=
      hasN_of_mem (a := [("type", AttrVal.str "sum"),
        ("label", AttrVal.str (_sum_label n uf))])
        (List.mem_append_right _ (by simp [intTriple]))
    have hpresI : hasN (gn.nodes ++ intTriple uf n) (_integrator_id n) = true :=
      hasN_of_mem (a := [("type", AttrVal.str "int"),
        ("label", AttrVal.str "1/s")])
        (List.mem_append_right _ (by simp [intTriple]))
    have hpresX : hasN (gn.nodes ++ intTriple uf n) (_state_id n) = true :=
      hasN_of_mem (a := [("type", AttrVal.str "state"),
        ("label", AttrVal.str (_state_label n uf))])
        (List.mem_append_right _ (by simp [intTriple]))
    have h4 : (_add_edge (((gn.addNode (_sum_id n) "sum" (_sum_label n uf)).addNode
        (_integrator_id n) "int" "1/s").addNode
        (_state_id n) "state" (_state_label n uf))
        (_sum_id n) (_integrator_id n) ONE false).nodes
        = gn.nodes ++ intTriple uf n := by
      rw [_add_edge_nodes_present ONE false (by rw [h3]; exact hpresS)
        (by rw [h3]; exact hpresI), h3]
    rw [_add_edge_nodes_present ONE false (by rw [h4]; exact hpresI)
      (by rw [h4]; exact hpresX), h4, hnodes]

theorem hasN_baseNodes_ysum (uf : Bool) : hasN (baseNodes uf) "ysum" = true := by
  unfold baseNodes hasN
  simp

theorem hasN_baseNodes_y (uf : Bool) : hasN (baseNodes uf) "y" = true := by
  unfold baseNodes hasN
  simp

/-- The node list of `build_integrator_graph`: exactly `u`, `y`, `ysum`
followed by the `sum`/`int`/`state` triple of every state index, in
construction order. -/
theorem build_integrator_graph_nodes (m : StateSpaceModel) (uf p : Bool) :
    (build_integrator_graph m uf p).nodes = intNodeList m.order uf := by
  unfold build_integrator_graph
  simp only []
  have h0 : (((Graph.empty.addNode "u" "input" "u").addNode "y" "output"
      "y").addNode "ysum" "sum" (_output_sum_label uf)).nodes
      = baseNodes uf := by
    rw [addNode_nodes, addNode_nodes, addNode_nodes,
      nodesUpsert_of_fresh _ (by decide), nodesUpsert_of_fresh _ (by decide),
      nodesUpsert_of_fresh _ (by decide)]
    rfl
  have h1 : (_add_edge (((Graph.empty.addNode "u" "input" "u").addNode "y"
      "output" "y").addNode "ysum" "sum" (_output_sum_label uf))
      "ysum" "y" ONE false).nodes = baseNodes uf := by
    rw [_add_edge_nodes_present ONE false (by rw [h0]; exact hasN_baseNodes_ysum uf)
      (by rw [h0]; exact hasN_baseNodes_y uf), h0]
  have h2 := int_loop_nodes m uf p m.order _ h1
  set G2 := (List.range m.order).foldl _
    (_add_edge (((Graph.empty.addNode "u" "input" "u").addNode "y"
      "output" "y").addNode "ysum" "sum" (_output_sum_label uf))
      "ysum" "y" ONE false) with hG2
  have h2i : G2.nodes = intNodeList m.order uf := h2
  have h3 : (_add_state_edges G2 m p (fun idx => _sum_id idx)).nodes
      = intNodeList m.order uf := by
    unfold _add_state_edges
    apply foldl_nodes_const _ _ _ ?_ G2 h2i
    intro g row hgN hrow
    rw [List.mem_range] at hrow
    have hinner : ((List.range m.order).foldl (fun g col =>
        _add_edge g (_state_id col) (_sum_id row) (m.A.get row col) p) g).nodes
        = intNodeList m.order uf := by
      apply foldl_nodes_const _ _ _ ?_ g hgN
      intro g2 col hg2 hcol
      rw [List.mem_range] at hcol
      rw [_add_edge_nodes_present _ p
        (by rw [hg2]; exact hasN_intNodeList_state _ uf hcol)
        (by rw [hg2]; exact hasN_intNodeList_sum _ uf hrow)]
      exact hg2
    rw [_add_edge_nodes_present _ p
      (by rw [hinner]; exact hasN_intNodeList_u _ uf)
      (by rw [hinner]; exact hasN_intNodeList_sum _ uf hrow), hinner]
  have h4 : ((List.range m.order).foldl (fun g idx =>
      _add_edge g (_state_id idx) "ysum" (m.c.get 0 idx) p)
      (_add_state_edges G2 m p (fun idx => _sum_id idx))).nodes
      = intNodeList m.order uf := by
    apply foldl_nodes_const _ _ _ ?_ _ h3
    intro g idx hgN hidx
    rw [List.mem_range] at hidx
    rw [_add_edge_nodes_present _ p
      (by rw [hgN]; exact hasN_intNodeList_state _ uf hidx)
      (by rw [hgN]; exact hasN_intNodeList_ysum _ uf)]
    exact hgN
  by_cases hd : m.d = ZERO
  · rw [if_neg (by simp [hd])]
    exact h4
  · rw [if_pos hd]
    rw [_add_edge_nodes_present _ p
      (by rw [h4]; exact hasN_intNodeList_u _ uf)
      (by rw [h4]; exact hasN_intNodeList_ysum _ uf), h4]

theorem build_integrator_graph_edges (m : StateSpaceModel) (uf p : Bool) :
    (build_integrator_graph m uf p).edges = planAddE [] (intPlan m p) := by
  unfold build_integrator_graph intPlan
  simp only []
  rw [planAddE_cons, planAddE_append, planAddE_append, planAddE_append]
  have h0 : (_add_edge
      (((Graph.empty.addNode "u" "input" "u").addNode "y" "output" "y").addNode
        "ysum" "sum" (_output_sum_label uf)) "ysum" "y" ONE false).edges
      = addE [] ⟨"ysum", "y", ONE, false⟩ := by
    rw [_add_edge_edges]
    simp [addNode_edges, Graph.empty]
  have hloop : ∀ g : Graph, ((List.range m.order).foldl (fun g idx =>
      _add_edge (_add_edge (((g.addNode (_sum_id idx) "sum" (_sum_label idx uf)).addNode
        (_integrator_id idx) "int" "1/s").addNode
        (_state_id idx) "state" (_state_label idx uf))
        (_sum_id idx) (_integrator_id idx) ONE false)
        (_integrator_id idx) (_state_id idx) ONE false) g).edges
      = planAddE g.edges ((List.range m.order).flatMap (fun i =>
        [⟨_sum_id i, _integrator_id i, ONE, false⟩,
         ⟨_integrator_id i, _state_id i, ONE, false⟩])) := by
    intro g
    rw [foldl_edges _ _ (fun es i => planAddE es
      [⟨_sum_id i, _integrator_id i, ONE, false⟩,
       ⟨_integrator_id i, _state_id i, ONE, false⟩])]
    · exact foldl_planAddE_flatMap ..
    · intro g2 i
      simp only [planAddE_cons]
      rw [_add_edge_edges, _add_edge_edges]
      simp only [addNode_edges]
      rfl
  by_cases hd : m.d = ZERO
  · simp only [hd, ne_eq, not_true_eq_false, if_false, if_pos rfl]
    rw [foldl_edges _ _ (fun es i => addE es
      (⟨_state_id i, "ysum", m.c.get 0 i, p⟩ : PlanE))
      (fun g2 i => _add_edge_edges ..), foldl_addE_map,
      _add_state_edges_edges, hloop, h0]
    rfl
  · simp only [hd, ne_eq, not_false_iff, if_true, if_neg hd]
    rw [_add_edge_edges,
      foldl_edges _ _ (fun es i => addE es
        (⟨_state_id i, "ysum", m.c.get 0 i, p⟩ : PlanE))
        (fun g2 i => _add_edge_edges ..), foldl_addE_map,
      _add_state_edges_edges, hloop, h0]
    rfl


/-! ### Edge-presence characterisations of the two builders -/

theorem sfg_findEdge_some_iff (m : StateSpaceModel) (uf p : Bool)
    (s t : String) (a : Attrs) :
    (build_sfg_graph m uf p).findEdge s t = some a ↔
      ∃ e ∈ sfgPlan m p, e.src = s ∧ e.dst = t ∧
        (e.prune && _is_zero e.gain) = false ∧
        a = [("gain", .expr e.gain)] := by
  rw [findEdge_eq_findE, build_sfg_graph_edges]
  exact planAddE_some_iff _ s t a (sfgPlan_pairwise m p)

theorem int_findEdge_some_iff (m : StateSpaceModel) (uf p : Bool)
    (s t : String) (a : Attrs) :
    (build_integrator_graph m uf p).findEdge s t = some a ↔
      ∃ e ∈ intPlan m p, e.src = s ∧ e.dst = t ∧
        (e.prune && _is_zero e.gain) = false ∧
        a = [("gain", .expr e.gain)] := by
  rw [findEdge_eq_findE, build_integrator_graph_edges]
  exact planAddE_some_iff _ s t a (intPlan_pairwise m p)

theorem hasEdge_iff_findEdge (g : Graph) (s t : String) :
    g.hasEdge s t = true ↔ g.findEdge s t ≠ none := by
  unfold Graph.hasEdge Graph.findEdge
  rw [List.any_eq_true]
  constructor
  · rintro ⟨e, hmem, hpred⟩
    have : (g.edges.find? (fun e => e.1 == s && e.2.1 == t)).isSome := by
      rw [List.find?_isSome]
      exact ⟨e, hmem, hpred⟩
    obtain ⟨e2, hf⟩ := Option.isSome_iff_exists.mp this
    rw [hf]
    simp
  · intro h
    cases hf : g.edges.find? (fun e => e.1 == s && e.2.1 == t) with
    | none => rw [hf] at h; simp at h
    | some e =>
      exact ⟨e, List.mem_of_find?_eq_some hf,
        List.find?_some (p := fun e : String × String × Attrs =>
          e.1 == s && e.2.1 == t) hf⟩

theorem findEdge_ne_none_iff (g : Graph) (s t : String) :
    g.findEdge s t ≠ none ↔ ∃ a, g.findEdge s t = some a := by
  cases h : g.findEdge s t <;> simp

/-- A coefficient edge survives pruning. -/
def okC (p : Bool) (e : Expr) : Prop := (p && _is_zero e) = false

theorem okC_false (e : Expr) : okC false e := rfl

/-- Which SFG edges are present, for either pruning mode. -/
theorem sfg_hasEdge_iff (m : StateSpaceModel) (uf p : Bool) (s t : String) :
    (build_sfg_graph m uf p).hasEdge s t = true ↔
      (∃ r < m.order, ∃ c < m.order,
        s = _state_id c ∧ t = _xdot_id r ∧ okC p (m.A.get r c)) ∨
      (∃ r < m.order, s = "u" ∧ t = _xdot_id r ∧ okC p (m.b.get r 0)) ∨
      (∃ i < m.order, s = _xdot_id i ∧ t = _state_id i) ∨
      (∃ i < m.order, s = _state_id i ∧ t = "y" ∧ okC p (m.c.get 0 i)) ∨
      (s = "u" ∧ t = "y" ∧ m.d ≠ ZERO ∧ okC p m.d) := by
  rw [hasEdge_iff_findEdge, findEdge_ne_none_iff]
  constructor
  · rintro ⟨a, ha⟩
    obtain ⟨e, hmem, hs, ht, hsurv, rfl⟩ := (sfg_findEdge_some_iff m uf p s t a).mp ha
    rcases mem_sfgPlan.mp hmem with ⟨r, hr, c, hc, rfl⟩ | ⟨r, hr, rfl⟩ |
        ⟨i, hi, rfl⟩ | ⟨i, hi, rfl⟩ | ⟨hd, rfl⟩
    · exact Or.inl ⟨r, hr, c, hc, hs.symm, ht.symm, hsurv⟩
    · exact Or.inr (Or.inl ⟨r, hr, hs.symm, ht.symm, hsurv⟩)
    · exact Or.inr (Or.inr (Or.inl ⟨i, hi, hs.symm, ht.symm⟩))
    · exact Or.inr (Or.inr (Or.inr (Or.inl ⟨i, hi, hs.symm, ht.symm, hsurv⟩)))
    · exact Or.inr (Or.inr (Or.inr (Or.inr ⟨hs.symm, ht.symm, hd, hsurv⟩)))
  · rintro (⟨r, hr, c, hc, rfl, rfl, hok⟩ | ⟨r, hr, rfl, rfl, hok⟩ |
        ⟨i, hi, rfl, rfl⟩ | ⟨i, hi, rfl, rfl, hok⟩ | ⟨rfl, rfl, hd, hok⟩)
    · exact ⟨_, (sfg_findEdge_some_iff ..).mpr
        ⟨_, mem_sfgPlan.mpr (Or.inl ⟨r, hr, c, hc, rfl⟩), rfl, rfl, hok, rfl⟩⟩
    · exact ⟨_, (sfg_findEdge_some_iff ..).mpr
        ⟨_, mem_sfgPlan.mpr (Or.inr (Or.inl ⟨r, hr, rfl⟩)), rfl, rfl, hok, rfl⟩⟩
    · exact ⟨_, (sfg_findEdge_some_iff ..).mpr
        ⟨_, mem_sfgPlan.mpr (Or.inr (Or.inr (Or.inl ⟨i, hi, rfl⟩))), rfl, rfl,
          rfl, rfl⟩⟩
    · exact ⟨_, (sfg_findEdge_some_iff ..).mpr
        ⟨_, mem_sfgPlan.mpr (Or.inr (Or.inr (Or.inr (Or.inl ⟨i, hi, rfl⟩)))),
          rfl, rfl, hok, rfl⟩⟩
    · exact ⟨_, (sfg_findEdge_some_iff ..).mpr
        ⟨_, mem_sfgPlan.mpr (Or.inr (Or.inr (Or.inr (Or.inr ⟨hd, rfl⟩)))),
          rfl, rfl, hok, rfl⟩⟩

/-- Which Integrator edges are present, for either pruning mode. -/
theorem int_hasEdge_iff (m : StateSpaceModel) (uf p : Bool) (s t : String) :
    (build_integrator_graph m uf p).hasEdge s t = true ↔
      (s = "ysum" ∧ t = "y") ∨
      (∃ i < m.order, s = _sum_id i ∧ t = _integrator_id i) ∨
      (∃ i < m.order, s = _integrator_id i ∧ t = _state_id i) ∨
      (∃ r < m.order, ∃ c < m.order,
        s = _state_id c ∧ t = _sum_id r ∧ okC p (m.A.get r c)) ∨
      (∃ r < m.order, s = "u" ∧ t = _sum_id r ∧ okC p (m.b.get r 0)) ∨
      (∃ i < m.order, s = _state_id i ∧ t = "ysum" ∧ okC p (m.c.get 0 i)) ∨
      (s = "u" ∧ t = "ysum" ∧ m.d ≠ ZERO ∧ okC p m.d) := by
  rw [hasEdge_iff_findEdge, findEdge_ne_none_iff]
  constructor
  · rintro ⟨a, ha⟩
    obtain ⟨e, hmem, hs, ht, hsurv, rfl⟩ :=
      (int_findEdge_some_iff m uf p s t a).mp ha
    rcases mem_intPlan.mp hmem with rfl | ⟨i, hi, rfl⟩ | ⟨i, hi, rfl⟩ |
        ⟨r, hr, c, hc, rfl⟩ | ⟨r, hr, rfl⟩ | ⟨i, hi, rfl⟩ | ⟨hd, rfl⟩
    · exact Or.inl ⟨hs.symm, ht.symm⟩
    · exact Or.inr (Or.inl ⟨i, hi, hs.symm, ht.symm⟩)
    · exact Or.inr (Or.inr (Or.inl ⟨i, hi, hs.symm, ht.symm⟩))
    · exact Or.inr (Or.inr (Or.inr (Or.inl ⟨r, hr, c, hc, hs.symm, ht.symm,
        hsurv⟩)))
    · exact Or.inr (Or.inr (Or.inr (Or.inr (Or.inl ⟨r, hr, hs.symm, ht.symm,
        hsurv⟩))))
    · exact Or.inr (Or.inr (Or.inr (Or.inr (Or.inr (Or.inl ⟨i, hi, hs.symm,
        ht.symm, hsurv⟩)))))
    · exact Or.inr (Or.inr (Or.inr (Or.inr (Or.inr (Or.inr ⟨hs.symm, ht.symm,
        hd, hsurv⟩)))))
  · rintro (⟨rfl, rfl⟩ | ⟨i, hi, rfl, rfl⟩ | ⟨i, hi, rfl, rfl⟩ |
        ⟨r, hr, c, hc, rfl, rfl, hok⟩ | ⟨r, hr, rfl, rfl, hok⟩ |
        ⟨i, hi, rfl, rfl, hok⟩ | ⟨rfl, rfl, hd, hok⟩)
    · exact ⟨_, (int_findEdge_some_iff ..).mpr
        ⟨_, mem_intPlan.mpr (Or.inl rfl), rfl, rfl, rfl, rfl⟩⟩
    · exact ⟨_, (int_findEdge_some_iff ..).mpr
        ⟨_, mem_intPlan.mpr (Or.inr (Or.inl ⟨i, hi, rfl⟩)), rfl, rfl, rfl, rfl⟩⟩
    · exact ⟨_, (int_findEdge_some_iff ..).mpr
        ⟨_, mem_intPlan.mpr (Or.inr (Or.inr (Or.inl ⟨i, hi, rfl⟩))), rfl, rfl,
          rfl, rfl⟩⟩
    · exact ⟨_, (int_findEdge_some_iff ..).mpr
        ⟨_, mem_intPlan.mpr (Or.inr (Or.inr (Or.inr (Or.inl ⟨r, hr, c, hc,
          rfl⟩)))), rfl, rfl, hok, rfl⟩⟩
    · exact ⟨_, (int_findEdge_some_iff ..).mpr
        ⟨_, mem_intPlan.mpr (Or.inr (Or.inr (Or.inr (Or.inr (Or.inl ⟨r, hr,
          rfl⟩))))), rfl, rfl, hok, rfl⟩⟩
    · exact ⟨_, (int_findEdge_some_iff ..).mpr
        ⟨_, mem_intPlan.mpr (Or.inr (Or.inr (Or.inr (Or.inr (Or.inr (Or.inl
          ⟨i, hi, rfl⟩)))))), rfl, rfl, hok, rfl⟩⟩
    · exact ⟨_, (int_findEdge_some_iff ..).mpr
        ⟨_, mem_intPlan.mpr (Or.inr (Or.inr (Or.inr (Or.inr (Or.inr (Or.inr
          ⟨hd, rfl⟩)))))), rfl, rfl, hok, rfl⟩⟩


/-! ### A built graph never holds two edges on the same ordered pair -/

/-- Two edge entries address different ordered pairs. -/
def EDiff (a b : String × String × Attrs) : Prop := ¬(a.1 = b.1 ∧ a.2.1 = b.2.1)

theorem edgesUpsert_pairwise (es : EdgeList) (s t : String) (a : Attrs)
    (h : es.Pairwise EDiff) : (edgesUpsert es s t a).Pairwise EDiff := by
  unfold edgesUpsert
  by_cases hp : es.any (fun e => e.1 == s && e.2.1 == t) = true
  · rw [if_pos hp, List.pairwise_map]
    have hproj : ∀ x : String × String × Attrs,
        ((if (x.1 == s && x.2.1 == t) = true then
          (x.1, x.2.1, a.foldl (fun a2 kv => setAttr a2 kv.1 kv.2) x.2.2)
         else x).1 = x.1 ∧
         (if (x.1 == s && x.2.1 == t) = true then
          (x.1, x.2.1, a.foldl (fun a2 kv => setAttr a2 kv.1 kv.2) x.2.2)
         else x).2.1 = x.2.1) := by
      intro x
      by_cases hx : (x.1 == s && x.2.1 == t) = true <;> simp [hx]
    refine h.imp ?_
    intro x y hxy hc
    obtain ⟨hx1, hx2⟩ := hproj x
    obtain ⟨hy1, hy2⟩ := hproj y
    exact hxy ⟨by rw [← hx1, ← hy1]; exact hc.1, by rw [← hx2, ← hy2]; exact hc.2⟩
  · rw [if_neg hp, List.pairwise_append]
    refine ⟨h, by simp, ?_⟩
    intro x hx y hy
    rw [List.mem_singleton] at hy
    subst hy
    rw [Bool.not_eq_true] at hp
    intro hc
    have := List.any_eq_false.mp hp x hx
    simp [hc.1, hc.2] at this

theorem addE_pairwise (es : EdgeList) (e : PlanE) (h : es.Pairwise EDiff) :
    (addE es e).Pairwise EDiff := by
  unfold addE
  by_cases hp : (e.prune && _is_zero e.gain) = true
  · rw [if_pos hp]
    exact h
  · rw [if_neg hp]
    exact edgesUpsert_pairwise es e.src e.dst _ h

theorem planAddE_pairwise (l : List PlanE) (es : EdgeList)
    (h : es.Pairwise EDiff) : (planAddE es l).Pairwise EDiff := by
  induction l generalizing es with
  | nil => exact h
  | cons e l ih => exact ih (addE es e) (addE_pairwise es e h)

theorem build_sfg_graph_edges_pairwise (m : StateSpaceModel) (uf p : Bool) :
    (build_sfg_graph m uf p).edges.Pairwise EDiff := by
  rw [build_sfg_graph_edges]
  exact planAddE_pairwise _ [] List.Pairwise.nil

/-- With pairwise-distinct pairs, a present edge is counted exactly once. -/
theorem filter_pair_length (es : EdgeList) (s t : String)
    (h : es.Pairwise EDiff) (hfind : findE es s t ≠ none) :
    (es.filter (fun e => e.1 == s && e.2.1 == t)).length = 1 := by
  induction es with
  | nil => exact absurd rfl hfind
  | cons x rest ih =>
    by_cases hx : (x.1 == s && x.2.1 == t) = true
    · rw [List.filter_cons, if_pos hx]
      have hx2 := hx
      simp only [Bool.and_eq_true, beq_iff_eq] at hx2
      have hrest : rest.filter (fun e => e.1 == s && e.2.1 == t) = [] := by
        rw [List.filter_eq_nil_iff]
        intro b hb hbc
        simp only [Bool.and_eq_true, beq_iff_eq] at hbc
        exact (List.pairwise_cons.mp h).1 b hb
          ⟨hx2.1.trans hbc.1.symm, hx2.2.trans hbc.2.symm⟩
      rw [hrest]
      rfl
    · rw [List.filter_cons, if_neg hx]
      apply ih (List.pairwise_cons.mp h).2
      have hxf : (x.1 == s && x.2.1 == t) = false := by
        rw [← Bool.not_eq_true]
        exact hx
      unfold findE at hfind ⊢
      rw [List.find?_cons, hxf] at hfind
      dsimp only at hfind
      exact hfind


/-! ### Attribute-dictionary lemmas for the emitter -/

theorem find?_map_setAttr (a : Attrs) (k : String) (v : AttrVal) :
    ((a.map (fun p => if p.1 == k then (k, v) else p)).find?
        (fun p => p.1 == k))
      = if (a.find? (fun p => p.1 == k)).isSome then some (k, v) else none := by
  induction a with
  | nil => simp
  | cons p rest ih =>
    by_cases hp : (p.1 == k) = true
    · rw [List.map_cons,
        show (if (p.1 == k) = true then (k, v) else p) = (k, v) from if_pos hp,
        List.find?_cons_of_pos (p := fun q : String × AttrVal => q.1 == k)
          _ (by simp),
        List.find?_cons_of_pos (p := fun q : String × AttrVal => q.1 == k)
          _ hp]
      simp
    · rw [List.map_cons,
        show (if (p.1 == k) = true then (k, v) else p) = p from if_neg hp,
        List.find?_cons_of_neg (p := fun q : String × AttrVal => q.1 == k)
          _ hp,
        List.find?_cons_of_neg (p := fun q : String × AttrVal => q.1 == k)
          _ hp, ih]

theorem getAttr_setAttr_same (a : Attrs) (k : String) (v : AttrVal) :
    getAttr (setAttr a k v) k = some v := by
  unfold setAttr getAttr
  by_cases hp : (a.find? (fun p => p.1 == k)).isSome = true
  · rw [if_pos hp, find?_map_setAttr, if_pos hp]
    rfl
  · rw [if_neg hp, List.find?_append]
    have : a.find? (fun p => p.1 == k) = none := by
      cases hf : a.find? (fun p => p.1 == k) with
      | none => rfl
      | some e => rw [hf] at hp; simp at hp
    rw [this]
    simp

theorem getAttr_setAttr_other (a : Attrs) (k : String) (v : AttrVal)
    {k2 : String} (h : k2 ≠ k) :
    getAttr (setAttr a k v) k2 = getAttr a k2 := by
  unfold setAttr getAttr
  by_cases hp : (a.find? (fun p => p.1 == k)).isSome = true
  · rw [if_pos hp, find?_map_congr]
    · intro e
      by_cases he : (e.1 == k) = true
      · rw [beq_iff_eq] at he
        simp [he]
      · simp [he]
    · intro e he
      rw [beq_iff_eq] at he
      have : (e.1 == k) = false := by
        simp only [beq_eq_false_iff_ne, ne_eq, he]
        exact fun hc => h hc
      simp [this]
  · rw [if_neg hp, List.find?_append]
    have hk : ((k : String) == k2) = false := by
      simp only [beq_eq_false_iff_ne, ne_eq]
      exact fun hc => h hc.symm
    cases hf : a.find? (fun p => p.1 == k2) with
    | none => simp [hk]
    | some e => simp [hk]

theorem getAttr_setdefault_same (a : Attrs) (k : String) (v : AttrVal) :
    getAttr (setdefaultAttr a k v) k = some ((getAttr a k).getD v) := by
  unfold setdefaultAttr
  by_cases hp : (getAttr a k).isSome = true
  · rw [if_pos hp]
    obtain ⟨w, hw⟩ := Option.isSome_iff_exists.mp hp
    rw [hw]
    rfl
  · rw [if_neg hp]
    have hnone : getAttr a k = none := by
      cases hf : getAttr a k with
      | none => rfl
      | some w => rw [hf] at hp; simp at hp
    unfold getAttr at hnone ⊢
    rw [List.find?_append]
    have : a.find? (fun p => p.1 == k) = none := by
      cases hf : a.find? (fun p => p.1 == k) with
      | none => rfl
      | some e => rw [hf] at hnone; simp at hnone
    rw [this]
    simp

theorem getAttr_setdefault_other (a : Attrs) (k : String) (v : AttrVal)
    {k2 : String} (h : k2 ≠ k) :
    getAttr (setdefaultAttr a k v) k2 = getAttr a k2 := by
  unfold setdefaultAttr
  by_cases hp : (getAttr a k).isSome = true
  · rw [if_pos hp]
  · rw [if_neg hp]
    unfold getAttr
    rw [List.find?_append]
    have hk : ((k : String) == k2) = false := by
      simp only [beq_eq_false_iff_ne, ne_eq]
      exact fun hc => h hc.symm
    cases hf : a.find? (fun p => p.1 == k2) with
    | none => simp [hk]
    | some e => simp [hk]

/-- Folding `setdefault` over pairs whose keys avoid `k` leaves `k`
untouched. -/
theorem getAttr_fold_setdefault_other (styles : Attrs) (d : Attrs)
    (k : String) (h : ∀ e ∈ styles, e.1 ≠ k) :
    getAttr (styles.foldl (fun a kv => setdefaultAttr a kv.1 kv.2) d) k
      = getAttr d k := by
  induction styles generalizing d with
  | nil => rfl
  | cons e styles ih =>
    simp only [List.foldl_cons]
    rw [ih _ (fun e2 he2 => h e2 (List.mem_cons_of_mem _ he2)),
      getAttr_setdefault_other _ _ _
        (fun hc => h e (List.mem_cons_self ..) hc.symm)]

/-- Folding `setdefault` over key-distinct pairs gives set-if-absent
semantics for each pair. -/
theorem getAttr_fold_setdefault_mem (styles : Attrs) (d : Attrs)
    (k : String) (v : AttrVal)
    (hnodup : styles.Pairwise (fun a b => a.1 ≠ b.1))
    (hmem : (k, v) ∈ styles) :
    getAttr (styles.foldl (fun a kv => setdefaultAttr a kv.1 kv.2) d) k
      = some ((getAttr d k).getD v) := by
  induction styles generalizing d with
  | nil => simp at hmem
  | cons e styles ih =>
    simp only [List.foldl_cons]
    rcases List.mem_cons.mp hmem with rfl | hmem2
    · rw [getAttr_fold_setdefault_other _ _ _ (fun e2 he2 hc =>
        (List.pairwise_cons.mp hnodup).1 e2 he2 hc.symm),
        getAttr_setdefault_same]
    · have hne : k ≠ e.1 := fun hc => by
        have := (List.pairwise_cons.mp hnodup).1 (k, v) hmem2
        simp only [] at this
        exact this hc.symm
      rw [ih _ (List.pairwise_cons.mp hnodup).2 hmem2,
        getAttr_setdefault_other _ _ _ hne]


theorem NODE_STYLES_keys_nodup (t : String) :
    (NODE_STYLES t).Pairwise (fun a b => a.1 ≠ b.1) := by
  unfold NODE_STYLES
  split_ifs <;> decide

theorem NODE_STYLES_no_label (t : String) :
    ∀ e ∈ NODE_STYLES t, e.1 ≠ "label" := by
  unfold NODE_STYLES
  split_ifs <;> decide

theorem okC_true_iff (e : Expr) : okC true e ↔ _is_zero e = false := by
  unfold okC
  simp

/-! ### Concrete instances used by the claim witnesses -/

/-- `(x + 1)**2 - x**2 - 2*x - 1`: structurally nonzero (sympy does not
auto-expand powers of sums), but its simplified form is zero. -/
def eTrickyZero : Expr :=
  .add (.add (.add (.pow (.add (.sym "x") (.const 1)) (.const 2))
      (.mul (.const (-1)) (.pow (.sym "x") (.const 2))))
      (.mul (.const (-2)) (.sym "x"))) (.const (-1))

/-- A 1×1 matrix. -/
def mat1x1 (e : Expr) : Mat := ⟨[[e]], rfl⟩

/-- Order-1 model whose feed-through `d` is `eTrickyZero`. -/
def mFeed : StateSpaceModel :=
  ⟨"feed", mat1x1 ZERO, mat1x1 ONE, mat1x1 ONE, eTrickyZero, ["x"],
    rfl, ⟨rfl, rfl⟩, ⟨rfl, rfl⟩⟩

/-- The order-2 demo model of the spec scenarios:
`A=[[0,1],[-2,-3]], b=[[0],[1]], c=[[1,0]], d=0`. -/
def mDemo : StateSpaceModel :=
  ⟨"demo",
    ⟨[[.const 0, .const 1], [.const (-2), .const (-3)]], rfl⟩,
    ⟨[[.const 0], [.const 1]], rfl⟩,
    ⟨[[.const 1, .const 0]], rfl⟩,
    ZERO, [], rfl, ⟨rfl, rfl⟩, ⟨rfl, rfl⟩⟩

/-- Order-1 model `A=[[0]], b=[1], c=[1], d=0`. -/
def mUnit : StateSpaceModel :=
  ⟨"unit", mat1x1 ZERO, mat1x1 ONE, mat1x1 ONE, ZERO, [],
    rfl, ⟨rfl, rfl⟩, ⟨rfl, rfl⟩⟩

/-- A graph with one edge carrying no `gain` attribute. -/
def gNoGain : Graph := ⟨[("a", []), ("b", [])], [("a", "b", [])]⟩

set_option maxRecDepth 8000

/-! ### The claims -/

/-- C1, counterexample: the claim says the feed-through edge is present
iff `d` is not the zero expression, regardless of `prune_zeros`.  For
`d = (x+1)**2 - x**2 - 2*x - 1` — not the zero expression — and
`prune_zeros=True`, both builders omit the edge, because `_add_edge`
prunes on the simplified value of `d`. -/
theorem C1_counterexample :
    mFeed.d ≠ ZERO ∧
    (build_sfg_graph mFeed false true).findEdge "u" "y" = none ∧
    (build_integrator_graph mFeed false true).findEdge "u" "ysum" = none :=
  ⟨by decide, by decide, by decide⟩

/-- C1, amended: for every valid Model and both topologies, the direct
feed-through edge (`u`→`y` in SFG, `u`→`ysum` in Integrator) is present
iff `d` is not the zero expression AND it is not pruned
(`prune_zeros` with `d` simplifying to zero); in particular with
`prune_zeros=False` the edge is present iff `d` is not the zero
expression, and when `d` is the zero expression the edge is omitted for
both values of `prune_zeros`. -/
theorem C1_theorem (m : StateSpaceModel) (uf p : Bool) :
    ((build_sfg_graph m uf p).hasEdge "u" "y" = true ↔
      (m.d ≠ ZERO ∧ okC p m.d)) ∧
    ((build_integrator_graph m uf p).hasEdge "u" "ysum" = true ↔
      (m.d ≠ ZERO ∧ okC p m.d)) := by
  constructor
  · rw [sfg_hasEdge_iff]
    constructor
    · rintro (⟨r, hr, c, hc, hu, hy, _⟩ | ⟨r, hr, hu, hy, _⟩ |
          ⟨i, hi, hu, hy⟩ | ⟨i, hi, hu, hy, _⟩ | ⟨hu, hy, hd, hok⟩)
      · exact absurd hu.symm (_state_id_ne_u c)
      · exact absurd hy.symm (_xdot_id_ne_y r)
      · exact absurd hu.symm (_xdot_id_ne_u i)
      · exact absurd hu.symm (_state_id_ne_u i)
      · exact ⟨hd, hok⟩
    · rintro ⟨hd, hok⟩
      exact Or.inr (Or.inr (Or.inr (Or.inr ⟨rfl, rfl, hd, hok⟩)))
  · rw [int_hasEdge_iff]
    constructor
    · rintro (⟨hu, hy⟩ | ⟨i, hi, hu, hy⟩ | ⟨i, hi, hu, hy⟩ |
          ⟨r, hr, c, hc, hu, hy, _⟩ | ⟨r, hr, hu, hy, _⟩ |
          ⟨i, hi, hu, hy, _⟩ | ⟨hu, hy, hd, hok⟩)
      · exact absurd hu (by decide)
      · exact absurd hu.symm (_sum_id_ne_u i)
      · exact absurd hu.symm (_int_id_ne_u i)
      · exact absurd hu.symm (_state_id_ne_u c)
      · exact absurd hy.symm (_sum_id_ne_ysum r)
      · exact absurd hu.symm (_state_id_ne_u i)
      · exact ⟨hd, hok⟩
    · rintro ⟨hd, hok⟩
      exact Or.inr (Or.inr (Or.inr (Or.inr (Or.inr (Or.inr
        ⟨rfl, rfl, hd, hok⟩)))))


/-- `(s, t)` is a coefficient-derived SFG edge whose gain simplifies to
zero (and which the unpruned graph contains). -/
def sfgZeroCoeff (m : StateSpaceModel) (s t : String) : Prop :=
  (∃ r < m.order, ∃ c < m.order,
    s = _state_id c ∧ t = _xdot_id r ∧ _is_zero (m.A.get r c) = true) ∨
  (∃ r < m.order, s = "u" ∧ t = _xdot_id r ∧ _is_zero (m.b.get r 0) = true) ∨
  (∃ i < m.order, s = _state_id i ∧ t = "y" ∧ _is_zero (m.c.get 0 i) = true) ∨
  (s = "u" ∧ t = "y" ∧ m.d ≠ ZERO ∧ _is_zero m.d = true)

/-- `(s, t)` is a coefficient-derived Integrator edge whose gain
simplifies to zero (and which the unpruned graph contains). -/
def intZeroCoeff (m : StateSpaceModel) (s t : String) : Prop :=
  (∃ r < m.order, ∃ c < m.order,
    s = _state_id c ∧ t = _sum_id r ∧ _is_zero (m.A.get r c) = true) ∨
  (∃ r < m.order, s = "u" ∧ t = _sum_id r ∧ _is_zero (m.b.get r 0) = true) ∨
  (∃ i < m.order, s = _state_id i ∧ t = "ysum" ∧
    _is_zero (m.c.get 0 i) = true) ∨
  (s = "u" ∧ t = "ysum" ∧ m.d ≠ ZERO ∧ _is_zero m.d = true)

/-- The SFG edges removed by pruning are exactly the zero coefficient
edges. -/
theorem sfg_prune_removed_iff (m : StateSpaceModel) (uf : Bool)
    (s t : String) :
    ((build_sfg_graph m uf false).hasEdge s t = true ∧
      (build_sfg_graph m uf true).hasEdge s t = false) ↔
    sfgZeroCoeff m s t := by
  constructor
  · rintro ⟨h1, h2⟩
    have h2p : ¬(build_sfg_graph m uf true).hasEdge s t = true := by
      simp [h2]
    rw [sfg_hasEdge_iff] at h1 h2p
    push_neg at h2p
    obtain ⟨hA, hb, hstruct, hc, hd⟩ := h2p
    rcases h1 with ⟨r, hr, c, hc2, rfl, rfl, _⟩ | ⟨r, hr, rfl, rfl, _⟩ |
        ⟨i, hi, rfl, rfl⟩ | ⟨i, hi, rfl, rfl, _⟩ | ⟨rfl, rfl, hdz, _⟩
    · refine Or.inl ⟨r, hr, c, hc2, rfl, rfl, ?_⟩
      have := hA r hr c hc2 rfl rfl
      rw [okC_true_iff] at this
      exact Bool.not_eq_false _ |>.mp this
    · refine Or.inr (Or.inl ⟨r, hr, rfl, rfl, ?_⟩)
      have := hb r hr rfl rfl
      rw [okC_true_iff] at this
      exact Bool.not_eq_false _ |>.mp this
    · exact absurd rfl (hstruct i hi rfl)
    · refine Or.inr (Or.inr (Or.inl ⟨i, hi, rfl, rfl, ?_⟩))
      have := hc i hi rfl rfl
      rw [okC_true_iff] at this
      exact Bool.not_eq_false _ |>.mp this
    · refine Or.inr (Or.inr (Or.inr ⟨rfl, rfl, hdz, ?_⟩))
      have := hd rfl rfl hdz
      rw [okC_true_iff] at this
      exact Bool.not_eq_false _ |>.mp this
  · intro hz
    refine ⟨?_, ?_⟩
    · rw [sfg_hasEdge_iff]
      rcases hz with ⟨r, hr, c, hc2, rfl, rfl, _⟩ | ⟨r, hr, rfl, rfl, _⟩ |
          ⟨i, hi, rfl, rfl, _⟩ | ⟨rfl, rfl, hdz, _⟩
      · exact Or.inl ⟨r, hr, c, hc2, rfl, rfl, okC_false _⟩
      · exact Or.inr (Or.inl ⟨r, hr, rfl, rfl, okC_false _⟩)
      · exact Or.inr (Or.inr (Or.inr (Or.inl ⟨i, hi, rfl, rfl, okC_false _⟩)))
      · exact Or.inr (Or.inr (Or.inr (Or.inr ⟨rfl, rfl, hdz, okC_false _⟩)))
    · rw [← Bool.not_eq_true, sfg_hasEdge_iff]
      rcases hz with ⟨r, hr, c, hc3, rfl, rfl, hz0⟩ | ⟨r, hr, rfl, rfl, hz0⟩ |
          ⟨i, hi, rfl, rfl, hz0⟩ | ⟨rfl, rfl, hdz, hz0⟩
      · rintro (⟨r2, hr2, c2, hc2, hs2, ht2, hok⟩ | ⟨r2, hr2, hs2, _, _⟩ |
            ⟨i2, hi2, hs2, _⟩ | ⟨i2, hi2, _, ht2, _⟩ | ⟨hs2, _, _, _⟩)
        · rw [okC_true_iff, ← _state_id_inj hs2, ← _xdot_id_inj ht2, hz0]
            at hok
          simp at hok
        · exact _state_id_ne_u c hs2
        · exact _state_id_ne_xdot_id c i2 hs2
        · exact _xdot_id_ne_y r ht2
        · exact _state_id_ne_u c hs2
      · rintro (⟨r2, hr2, c2, hc2, hs2, _, _⟩ | ⟨r2, hr2, _, ht2, hok⟩ |
            ⟨i2, hi2, hs2, _⟩ | ⟨i2, hi2, hs2, _, _⟩ | ⟨_, ht2, _, _⟩)
        · exact _state_id_ne_u c2 hs2.symm
        · rw [okC_true_iff, ← _xdot_id_inj ht2, hz0] at hok
          simp at hok
        · exact _xdot_id_ne_u i2 hs2.symm
        · exact _state_id_ne_u i2 hs2.symm
        · exact _xdot_id_ne_y r ht2
      · rintro (⟨r2, hr2, c2, hc2, _, ht2, _⟩ | ⟨r2, hr2, hs2, _, _⟩ |
            ⟨i2, hi2, _, ht2⟩ | ⟨i2, hi2, hs2, _, hok⟩ | ⟨hs2, _, _, _⟩)
        · exact _xdot_id_ne_y r2 ht2.symm
        · exact _state_id_ne_u i hs2
        · exact _state_id_ne_y i2 ht2.symm
        · rw [okC_true_iff, ← _state_id_inj hs2, hz0] at hok
          simp at hok
        · exact _state_id_ne_u i hs2
      · rintro (⟨r2, hr2, c2, hc2, hs2, _, _⟩ | ⟨r2, hr2, _, ht2, _⟩ |
            ⟨i2, hi2, hs2, _⟩ | ⟨i2, hi2, hs2, _, _⟩ | ⟨_, _, _, hok⟩)
        · exact _state_id_ne_u c2 hs2.symm
        · exact _xdot_id_ne_y r2 ht2.symm
        · exact _xdot_id_ne_u i2 hs2.symm
        · exact _state_id_ne_u i2 hs2.symm
        · rw [okC_true_iff, hz0] at hok
          simp at hok

/-- The Integrator edges removed by pruning are exactly the zero
coefficient edges. -/
theorem int_prune_removed_iff (m : StateSpaceModel) (uf : Bool)
    (s t : String) :
    ((build_integrator_graph m uf false).hasEdge s t = true ∧
      (build_integrator_graph m uf true).hasEdge s t = false) ↔
    intZeroCoeff m s t := by
  constructor
  · rintro ⟨h1, h2⟩
    have h2p : ¬(build_integrator_graph m uf true).hasEdge s t = true := by
      simp [h2]
    rw [int_hasEdge_iff] at h1 h2p
    push_neg at h2p
    obtain ⟨hyy, hsi, his, hA, hb, hc, hd⟩ := h2p
    rcases h1 with ⟨rfl, rfl⟩ | ⟨i, hi, rfl, rfl⟩ | ⟨i, hi, rfl, rfl⟩ |
        ⟨r, hr, c, hc2, rfl, rfl, _⟩ | ⟨r, hr, rfl, rfl, _⟩ |
        ⟨i, hi, rfl, rfl, _⟩ | ⟨rfl, rfl, hdz, _⟩
    · exact absurd rfl (hyy rfl)
    · exact absurd rfl (hsi i hi rfl)
    · exact absurd rfl (his i hi rfl)
    · refine Or.inl ⟨r, hr, c, hc2, rfl, rfl, ?_⟩
      have := hA r hr c hc2 rfl rfl
      rw [okC_true_iff] at this
      exact Bool.not_eq_false _ |>.mp this
    · refine Or.inr (Or.inl ⟨r, hr, rfl, rfl, ?_⟩)
      have := hb r hr rfl rfl
      rw [okC_true_iff] at this
      exact Bool.not_eq_false _ |>.mp this
    · refine Or.inr (Or.inr (Or.inl ⟨i, hi, rfl, rfl, ?_⟩))
      have := hc i hi rfl rfl
      rw [okC_true_iff] at this
      exact Bool.not_eq_false _ |>.mp this
    · refine Or.inr (Or.inr (Or.inr ⟨rfl, rfl, hdz, ?_⟩))
      have := hd rfl rfl hdz
      rw [okC_true_iff] at this
      exact Bool.not_eq_false _ |>.mp this
  · intro hz
    refine ⟨?_, ?_⟩
    · rw [int_hasEdge_iff]
      rcases hz with ⟨r, hr, c, hc2, rfl, rfl, _⟩ | ⟨r, hr, rfl, rfl, _⟩ |
          ⟨i, hi, rfl, rfl, _⟩ | ⟨rfl, rfl, hdz, _⟩
      · exact Or.inr (Or.inr (Or.inr (Or.inl
          ⟨r, hr, c, hc2, rfl, rfl, okC_false _⟩)))
      · exact Or.inr (Or.inr (Or.inr (Or.inr (Or.inl
          ⟨r, hr, rfl, rfl, okC_false _⟩))))
      · exact Or.inr (Or.inr (Or.inr (Or.inr (Or.inr (Or.inl
          ⟨i, hi, rfl, rfl, okC_false _⟩)))))
      · exact Or.inr (Or.inr (Or.inr (Or.inr (Or.inr (Or.inr
          ⟨rfl, rfl, hdz, okC_false _⟩)))))
    · rw [← Bool.not_eq_true, int_hasEdge_iff]
      rcases hz with ⟨r, hr, c, hc3, rfl, rfl, hz0⟩ | ⟨r, hr, rfl, rfl, hz0⟩ |
          ⟨i, hi, rfl, rfl, hz0⟩ | ⟨rfl, rfl, hdz, hz0⟩
      · rintro (⟨hs2, _⟩ | ⟨i2, hi2, hs2, _⟩ | ⟨i2, hi2, hs2, _⟩ |
            ⟨r2, hr2, c2, hc2, hs2, ht2, hok⟩ | ⟨r2, hr2, hs2, _, _⟩ |
            ⟨i2, hi2, _, ht2, _⟩ | ⟨hs2, _, _, _⟩)
        · exact _state_id_ne_ysum c hs2
        · exact _state_id_ne_sum_id c i2 hs2
        · exact _state_id_ne_int_id c i2 hs2
        · rw [okC_true_iff, ← _state_id_inj hs2, ← _sum_id_inj ht2, hz0]
            at hok
          simp at hok
        · exact _state_id_ne_u c hs2
        · exact _sum_id_ne_ysum r ht2
        · exact _state_id_ne_u c hs2
      · rintro (⟨hs2, _⟩ | ⟨i2, hi2, hs2, _⟩ | ⟨i2, hi2, hs2, _⟩ |
            ⟨r2, hr2, c2, hc2, hs2, _, _⟩ | ⟨r2, hr2, _, ht2, hok⟩ |
            ⟨i2, hi2, hs2, _, _⟩ | ⟨_, ht2, _, _⟩)
        · exact absurd hs2 (by decide)
        · exact _sum_id_ne_u i2 hs2.symm
        · exact _int_id_ne_u i2 hs2.symm
        · exact _state_id_ne_u c2 hs2.symm
        · rw [okC_true_iff, ← _sum_id_inj ht2, hz0] at hok
          simp at hok
        · exact _state_id_ne_u i2 hs2.symm
        · exact _sum_id_ne_ysum r ht2
      · rintro (⟨hs2, _⟩ | ⟨i2, hi2, hs2, _⟩ | ⟨i2, hi2, hs2, _⟩ |
            ⟨r2, hr2, c2, hc2, _, ht2, _⟩ | ⟨r2, hr2, hs2, _, _⟩ |
            ⟨i2, hi2, hs2, _, hok⟩ | ⟨hs2, _, _, _⟩)
        · exact _state_id_ne_ysum i hs2
        · exact _state_id_ne_sum_id i i2 hs2
        · exact _state_id_ne_int_id i i2 hs2
        · exact _sum_id_ne_ysum r2 ht2.symm
        · exact _state_id_ne_u i hs2
        · rw [okC_true_iff, ← _state_id_inj hs2, hz0] at hok
          simp at hok
        · exact _state_id_ne_u i hs2
      · rintro (⟨hs2, _⟩ | ⟨i2, hi2, hs2, _⟩ | ⟨i2, hi2, hs2, _⟩ |
            ⟨r2, hr2, c2, hc2, hs2, _, _⟩ | ⟨r2, hr2, _, ht2, _⟩ |
            ⟨i2, hi2, hs2, _, _⟩ | ⟨_, _, _, hok⟩)
        · exact absurd hs2 (by decide)
        · exact _sum_id_ne_u i2 hs2.symm
        · exact _int_id_ne_u i2 hs2.symm
        · exact _state_id_ne_u c2 hs2.symm
        · exact _sum_id_ne_ysum r2 ht2.symm
        · exact _state_id_ne_u i2 hs2.symm
        · rw [okC_true_iff, hz0] at hok
          simp at hok

/-- C2: for every valid Model and both topologies, `prune_zeros=True`
omits exactly the coefficient-derived edges (entries of A, b, c, d)
whose expression simplifies to the additive identity — the zero test is
on the simplified expression, so a coefficient expression-equal to zero
but not syntactically zero is still pruned — and never removes a
structural edge: the 1/s edges of the SFG and the unit-gain `sum→int`,
`int→state` and `ysum→y` edges of the Integrator are all present in the
pruned graphs with their exact gains. -/
theorem C2_theorem (m : StateSpaceModel) (uf : Bool) :
    (∀ s t, ((build_sfg_graph m uf false).hasEdge s t = true ∧
        (build_sfg_graph m uf true).hasEdge s t = false) ↔
      sfgZeroCoeff m s t) ∧
    (∀ i < m.order, (build_sfg_graph m uf true).findEdge
      (_xdot_id i) (_state_id i) = some [("gain", .expr oneOverS)]) ∧
    (∀ s t, ((build_integrator_graph m uf false).hasEdge s t = true ∧
        (build_integrator_graph m uf true).hasEdge s t = false) ↔
      intZeroCoeff m s t) ∧
    ((build_integrator_graph m uf true).findEdge "ysum" "y"
      = some [("gain", .expr ONE)]) ∧
    (∀ i < m.order,
      (build_integrator_graph m uf true).findEdge
        (_sum_id i) (_integrator_id i) = some [("gain", .expr ONE)] ∧
      (build_integrator_graph m uf true).findEdge
        (_integrator_id i) (_state_id i) = some [("gain", .expr ONE)]) := by
  refine ⟨sfg_prune_removed_iff m uf, ?_, int_prune_removed_iff m uf, ?_, ?_⟩
  · intro i hi
    exact (sfg_findEdge_some_iff ..).mpr
      ⟨_, mem_sfgPlan.mpr (Or.inr (Or.inr (Or.inl ⟨i, hi, rfl⟩))), rfl, rfl,
        rfl, rfl⟩
  · exact (int_findEdge_some_iff ..).mpr
      ⟨_, mem_intPlan.mpr (Or.inl rfl), rfl, rfl, rfl, rfl⟩
  · intro i hi
    exact ⟨(int_findEdge_some_iff ..).mpr
        ⟨_, mem_intPlan.mpr (Or.inr (Or.inl ⟨i, hi, rfl⟩)), rfl, rfl, rfl,
          rfl⟩,
      (int_findEdge_some_iff ..).mpr
        ⟨_, mem_intPlan.mpr (Or.inr (Or.inr (Or.inl ⟨i, hi, rfl⟩))), rfl, rfl,
          rfl, rfl⟩⟩


/-- C3: for every valid Model of order n, both flag settings, and every
state index `i < n`, `build_sfg_graph` contains exactly one edge from
`xdot(i+1)` to `x(i+1)`; its gain is the Laplace integration operator
`1/s` and `format_gain` with default options renders it as exactly
"1/s". -/
theorem C3_theorem (m : StateSpaceModel) (uf p : Bool) (i : Nat)
    (hi : i < m.order) :
    ((build_sfg_graph m uf p).edges.filter (fun e =>
      e.1 == _xdot_id i && e.2.1 == _state_id i)).length = 1 ∧
    (build_sfg_graph m uf p).findEdge (_xdot_id i) (_state_id i)
      = some [("gain", .expr oneOverS)] ∧
    format_gain oneOverS false none = "1/s" := by
  have hfind : (build_sfg_graph m uf p).findEdge (_xdot_id i) (_state_id i)
      = some [("gain", .expr oneOverS)] :=
    (sfg_findEdge_some_iff ..).mpr
      ⟨_, mem_sfgPlan.mpr (Or.inr (Or.inr (Or.inl ⟨i, hi, rfl⟩))), rfl, rfl,
        rfl, rfl⟩
  refine ⟨?_, hfind, by decide⟩
  apply filter_pair_length _ _ _ (build_sfg_graph_edges_pairwise m uf p)
  rw [← findEdge_eq_findE, hfind]
  simp

/-- C3, witness at the spec's order-2 demo model, index 0. -/
theorem C3_witness :
    0 < mDemo.order ∧
    (((build_sfg_graph mDemo false false).edges.filter (fun e =>
      e.1 == _xdot_id 0 && e.2.1 == _state_id 0)).length = 1 ∧
    (build_sfg_graph mDemo false false).findEdge (_xdot_id 0) (_state_id 0)
      = some [("gain", .expr oneOverS)] ∧
    format_gain oneOverS false none = "1/s") :=
  ⟨by decide, C3_theorem mDemo false false 0 (by decide)⟩

theorem intNodeList_length (n : Nat) (uf : Bool) :
    (intNodeList n uf).length = 3 + 3 * n := by
  unfold intNodeList
  rw [List.length_append]
  have h : ((List.range n).flatMap (intTriple uf)).length = 3 * n := by
    induction n with
    | zero => rfl
    | succ n ih =>
      rw [List.range_succ, List.flatMap_append, List.length_append, ih,
        List.flatMap_cons, List.flatMap_nil, List.append_nil]
      have h3 : (intTriple uf n).length = 3 := rfl
      rw [h3]
      omega
  rw [h]
  have hb : (baseNodes uf).length = 3 := rfl
  rw [hb]

theorem countP_triples (uf : Bool) (pred : String × Attrs → Bool) (k : Nat)
    (h : ∀ i, (intTriple uf i).countP pred = k) (n : Nat) :
    ((List.range n).flatMap (intTriple uf)).countP pred = k * n := by
  induction n with
  | zero => rfl
  | succ n ih =>
    rw [List.range_succ, List.flatMap_append, List.countP_append, ih,
      List.flatMap_cons, List.flatMap_nil, List.append_nil, h n]
    ring

/-- C4, counterexample: on an order-1 model the built Integrator graph
has two nodes of type `sum` (`sum1` and `ysum`), not exactly one. -/
theorem C4_counterexample :
    mUnit.order = 1 ∧
    (build_integrator_graph mUnit false false).nodes.countP
      (fun q => getAttr q.2 "type" == some (.str "sum")) = 2 :=
  ⟨rfl, by decide⟩

/-- C4, amended: for every valid Model of order n and any flag values,
the built Integrator graph's node list is exactly `u`, `y`, `ysum`
followed by the `sum`/`int`/`state` triple per state — 3 + 3n nodes in
total, of which n+1 have type `sum` (sum1..sumn and also `ysum`, which
carries type `sum`), n have type `int` (int1..intn), and n have type
`state` (x1..xn). -/
theorem C4_theorem (m : StateSpaceModel) (uf p : Bool) :
    (build_integrator_graph m uf p).nodes = intNodeList m.order uf ∧
    (build_integrator_graph m uf p).nodes.length = 3 + 3 * m.order ∧
    (build_integrator_graph m uf p).nodes.countP
      (fun q => getAttr q.2 "type" == some (.str "sum")) = m.order + 1 ∧
    (build_integrator_graph m uf p).nodes.countP
      (fun q => getAttr q.2 "type" == some (.str "int")) = m.order ∧
    (build_integrator_graph m uf p).nodes.countP
      (fun q => getAttr q.2 "type" == some (.str "state")) = m.order ∧
    (build_integrator_graph m uf p).findNode "ysum"
      = some [("type", .str "sum"),
        ("label", .str (_output_sum_label uf))] := by
  have hn := build_integrator_graph_nodes m uf p
  refine ⟨hn, ?_, ?_, ?_, ?_, ?_⟩
  · rw [hn, intNodeList_length]
  · rw [hn]
    unfold intNodeList
    rw [List.countP_append, countP_triples uf
      (fun q => getAttr q.2 "type" == some (.str "sum")) 1 (fun i => rfl)]
    have hb : (baseNodes uf).countP
        (fun q => getAttr q.2 "type" == some (.str "sum")) = 1 := rfl
    rw [hb]
    omega
  · rw [hn]
    unfold intNodeList
    rw [List.countP_append, countP_triples uf
      (fun q => getAttr q.2 "type" == some (.str "int")) 1 (fun i => rfl)]
    have hb : (baseNodes uf).countP
        (fun q => getAttr q.2 "type" == some (.str "int")) = 0 := rfl
    rw [hb]
    omega
  · rw [hn]
    unfold intNodeList
    rw [List.countP_append, countP_triples uf
      (fun q => getAttr q.2 "type" == some (.str "state")) 1 (fun i => rfl)]
    have hb : (baseNodes uf).countP
        (fun q => getAttr q.2 "type" == some (.str "state")) = 0 := rfl
    rw [hb]
    omega
  · unfold Graph.findNode
    rw [hn]
    unfold intNodeList
    rw [List.find?_append]
    have hb : (baseNodes uf).find? (fun q => q.1 == "ysum")
        = some ("ysum", [("type", .str "sum"),
          ("label", .str (_output_sum_label uf))]) := rfl
    rw [hb]
    rfl

/-- C5: `format_gain` with `float_precision` set renders a pure-number
expression via the exact-rational `%g` model `gFormat`; when the numeric
evaluation fails (`evalNum = none`, the modelled
`TypeError`/`ValueError` of the `float` conversion) it falls back to the
expression's default string form; and it is a total function — it never
raises.  Precision is modelled for the documented domain `p ≥ 1` (the
CLI enforces `min=1`). -/
theorem C5_theorem (gain : Expr) (sf : Bool) (p : Nat) (hp : 1 ≤ p) :
    (∃ s, format_gain gain sf (some p) = s) ∧
    (is_number (if sf then simplifyE gain else gain) = true →
      (∀ q, evalNum (if sf then simplifyE gain else gain) = some q →
        format_gain gain sf (some p) = gFormat q p) ∧
      (evalNum (if sf then simplifyE gain else gain) = none →
        format_gain gain sf (some p)
          = exprStr (if sf then simplifyE gain else gain))) := by
  refine ⟨⟨_, rfl⟩, fun hnum => ⟨?_, ?_⟩⟩
  · intro q hq
    unfold format_gain
    simp only [hnum, Option.isSome_some, Bool.and_true, Bool.true_and,
      if_true, hq]
    rfl
  · intro hq
    unfold format_gain
    simp only [hnum, Option.isSome_some, Bool.and_true, Bool.true_and,
      if_true, hq]

/-- C5, witness at the numeric gain 5 with precision 3. -/
theorem C5_witness :
    1 ≤ 3 ∧
    ((∃ s, format_gain (Expr.const 5) false (some 3) = s) ∧
     (is_number (if false then simplifyE (Expr.const 5) else Expr.const 5)
        = true →
       (∀ q, evalNum (if false then simplifyE (Expr.const 5)
            else Expr.const 5) = some q →
         format_gain (Expr.const 5) false (some 3) = gFormat q 3) ∧
       (evalNum (if false then simplifyE (Expr.const 5) else Expr.const 5)
          = none →
         format_gain (Expr.const 5) false (some 3)
           = exprStr (if false then simplifyE (Expr.const 5)
              else Expr.const 5)))) :=
  ⟨by decide, C5_theorem (Expr.const 5) false 3 (by decide)⟩

/-- C6: `graph_to_dot` serialises the styled copy, on which every node
receives the per-type style attributes of the fixed style table with
set-if-absent semantics, a node without a label gets its identifier as
label, and every edge's label is the Gain Formatter's output for its
stored gain, replacing any prior label. -/
theorem C6_theorem (g : Graph) (rd : String) (sf : Bool) (fp : Option Nat) :
    graph_to_dot g rd sf fp = dotString (styleGraph g sf fp) rd ∧
    (styleGraph g sf fp).nodes
      = g.nodes.map (fun q => (q.1, styleNodeData q.1 q.2)) ∧
    (∀ nid data t, getAttr data "type" = some (.str t) →
      ∀ k v, (k, v) ∈ NODE_STYLES t →
        getAttr (styleNodeData nid data) k = some ((getAttr data k).getD v)) ∧
    (∀ nid data, getAttr (styleNodeData nid data) "label"
      = some ((getAttr data "label").getD (.str nid))) ∧
    (styleGraph g sf fp).edges
      = g.edges.map (fun e => (e.1, e.2.1, styleEdgeData sf fp e.2.2)) ∧
    (∀ data, getAttr (styleEdgeData sf fp data) "label"
      = some (.str (format_gain (gainOf data) sf fp))) := by
  refine ⟨rfl, rfl, ?_, ?_, rfl, ?_⟩
  · intro nid data t hty k v hkv
    unfold styleNodeData
    rw [hty]
    dsimp only
    rw [getAttr_setdefault_other _ _ _ (NODE_STYLES_no_label t (k, v) hkv),
      getAttr_fold_setdefault_mem _ _ _ _ (NODE_STYLES_keys_nodup t) hkv]
  · intro nid data
    unfold styleNodeData
    cases hty : getAttr data "type" with
    | none =>
      dsimp only
      rw [getAttr_setdefault_same]
      rfl
    | some v =>
      cases v with
      | str t =>
        dsimp only
        rw [getAttr_setdefault_same,
          getAttr_fold_setdefault_other _ _ _ (NODE_STYLES_no_label t)]
      | expr e =>
        dsimp only
        rw [getAttr_setdefault_same]
        rfl
  · intro data
    unfold styleEdgeData
    rw [getAttr_setAttr_same]

/-- C7: constructing a `StateSpaceModel` with a non-square A, a `b` that
is not n×1, or a `c` that is not 1×n fails with a validation error, and
no such model exists for the graph builders to consume (every
`StateSpaceModel` carries the invariants). -/
theorem C7_theorem (name : String) (A b c : Mat) (d : Expr)
    (vars : List String)
    (h : ¬(A.cols = A.rows) ∨ ¬(b.rows = A.rows ∧ b.cols = 1) ∨
      ¬(c.rows = 1 ∧ c.cols = A.rows)) :
    (∃ msg, mkStateSpaceModel name A b c d vars = .error msg) ∧
    (∀ m : StateSpaceModel, m.A.cols = m.A.rows ∧
      (m.b.rows = m.A.rows ∧ m.b.cols = 1) ∧
      (m.c.rows = 1 ∧ m.c.cols = m.A.rows)) := by
  refine ⟨?_, fun m => ⟨m.A_square, m.b_shape, m.c_shape⟩⟩
  unfold mkStateSpaceModel
  split_ifs with h1 h2 h3
  · rcases h with h | h | h <;> exact absurd (by assumption) h
  · exact ⟨_, rfl⟩
  · exact ⟨_, rfl⟩
  · exact ⟨_, rfl⟩

/-- A 2×1 matrix of ones. -/
def mat2x1 : Mat := ⟨[[ONE], [ONE]], rfl⟩

/-- C7, witness: spec scenario 5 — a 1×1 A with a length-2 b fails at
construction, so no graph is built from it. -/
theorem C7_witness :
    (¬((mat1x1 ZERO).cols = (mat1x1 ZERO).rows) ∨
     ¬(mat2x1.rows = (mat1x1 ZERO).rows ∧ mat2x1.cols = 1) ∨
     ¬((mat1x1 ONE).rows = 1 ∧ (mat1x1 ONE).cols = (mat1x1 ZERO).rows)) ∧
    ((∃ msg, mkStateSpaceModel "m" (mat1x1 ZERO) mat2x1 (mat1x1 ONE) ZERO []
        = .error msg) ∧
     (∀ m : StateSpaceModel, m.A.cols = m.A.rows ∧
       (m.b.rows = m.A.rows ∧ m.b.cols = 1) ∧
       (m.c.rows = 1 ∧ m.c.cols = m.A.rows))) :=
  ⟨by decide,
    C7_theorem "m" (mat1x1 ZERO) mat2x1 (mat1x1 ONE) ZERO [] (by decide)⟩

/-- C8: `graph_to_dot` leaves its input graph unchanged — the call only
reads the input graph and applies styling and edge labels to the working
copy it serialises. -/
theorem C8_theorem (g : Graph) (rd : String) (sf : Bool) (fp : Option Nat) :
    (graph_to_dot_run g rd sf fp).1 = g ∧
    (graph_to_dot_run g rd sf fp).2 = graph_to_dot g rd sf fp :=
  ⟨rfl, rfl⟩

/-- C9: `build_graph` returns the SFG graph for the `sfg` member, the
Integrator graph for the `integrator` member, and fails for any other
style value with a configuration error whose message contains the
offending value. -/
theorem C9_theorem (m : StateSpaceModel) (uf pz : Bool) :
    build_graph m (.member .sfg) uf pz = .ok (build_sfg_graph m uf pz) ∧
    build_graph m (.member .integrator) uf pz
      = .ok (build_integrator_graph m uf pz) ∧
    (∀ v, build_graph m (.other v) uf pz
        = .error ("Unsupported graph style \x27" ++ v ++ "\x27") ∧
      ∃ l r, ("Unsupported graph style \x27" ++ v ++ "\x27").data
        = l ++ v.data ++ r) := by
  refine ⟨rfl, rfl, fun v => ⟨rfl,
    "Unsupported graph style \x27".data, "\x27".data, ?_⟩⟩
  rw [String.data_append, String.data_append]

/-- C10: an edge with no stored `gain` attribute does not make
`graph_to_dot` fail — the gain defaults to the multiplicative identity,
so the styled edge's label is the Gain Formatter's rendering of 1, the
string "1" under default options. -/
theorem C10_theorem (g : Graph) (s t : String) (data : Attrs)
    (hmem : (s, t, data) ∈ g.edges) (hng : getAttr data "gain" = none) :
    (s, t, styleEdgeData false none data) ∈ (styleGraph g false none).edges ∧
    getAttr (styleEdgeData false none data) "label" = some (.str "1") ∧
    format_gain ONE false none = "1" := by
  refine ⟨?_, ?_, by decide⟩
  · unfold styleGraph
    exact List.mem_map.mpr ⟨(s, t, data), hmem, rfl⟩
  · unfold styleEdgeData
    rw [getAttr_setAttr_same]
    unfold gainOf
    rw [hng]
    rfl

/-- C10, witness on a two-node graph whose single edge has no
attributes at all. -/
theorem C10_witness :
    (("a", "b", ([] : Attrs)) ∈ gNoGain.edges ∧
      getAttr ([] : Attrs) "gain" = none) ∧
    (("a", "b", styleEdgeData false none [])
        ∈ (styleGraph gNoGain false none).edges ∧
      getAttr (styleEdgeData false none []) "label" = some (.str "1") ∧
      format_gain ONE false none = "1") :=
  ⟨⟨by decide, rfl⟩, C10_theorem gNoGain "a" "b" [] (by decide) rfl⟩

end SSSchem
